import Mathlib

/-!
Verification of the gcoap CoAP engine (RIOT, kb2ma tree).

Shallow embedding of the C sources under `sys/net/application_layer/gcoap/`
(`gcoap.c`, `listener_app.c`) and `sys/net/transport_layer/tdtls/tdtls.c`.
Fixed-size C arrays are modelled as Lean lists whose length is the
compile-time capacity; pointers into the observer and resend-buffer arrays
are modelled as indices; machine integers are `Nat`/`Int` with explicit
reductions modulo `2 ^ w` where C truncation matters.  The configuration
modelled is the default asynchronous one (`GCOAP_SEND_WAIT_FOR_RESPONSE = 0`,
`GCOAP_RESEND_BUFS_MAX > 0`).
-/

namespace Gcoap

/-- `US_PER_SEC` from RIOT's timex.h, used by `_event_loop` and
`gcoap_req_send2`. -/
def US_PER_SEC : Nat := 1000000

/-- `COAP_ACK_TIMEOUT` (seconds), RFC 7252 default used by gcoap.h. -/
def COAP_ACK_TIMEOUT : Nat := 2

/-- `COAP_MAX_RETRANSMIT`, RFC 7252 default used by gcoap.h. -/
def COAP_MAX_RETRANSMIT : Nat := 4

/-- `GCOAP_SEND_LIMIT_NON`: the sentinel value stored in
`memo->send_limit` for a non-confirmable request (negative, so that
`send_limit >= 0` means "confirmable"). -/
def GCOAP_SEND_LIMIT_NON : Int := -1

/-- `AF_UNSPEC`: the address family marking a free observer slot. -/
def AF_UNSPEC : Nat := 0

/-- `AF_INET6` (any fixed value distinct from `AF_UNSPEC` works; the code
only compares it against the two constants). -/
def AF_INET6 : Nat := 28

/-- CoAP message types, the two-bit field of the first header byte. -/
inductive CoapType
  | CON
  | NON
  | ACK
  | RST
deriving DecidableEq

/-- Request-memo lifecycle states (`GCOAP_MEMO_*`). -/
inductive MemoState
  | UNUSED
  | WAIT
  | RESP
  | TIMEOUT
deriving DecidableEq, Inhabited

/-! ## Endpoints and the DTLS adapter (tdtls.c) -/

/-- `sock_udp_ep_t`: family, 16 IPv6 address bytes, port, netif.  The
address is a byte list; the C code compares / copies a fixed number of
leading bytes, modelled with `List.take`. -/
structure SockEp where
  family : Nat
  addr : List Nat
  port : Nat
  netif : Nat
deriving DecidableEq, Inhabited

/-- `SOCK_ADDR_ANY_NETIF`. -/
def SOCK_ADDR_ANY_NETIF : Nat := 0

/-- tinydtls `session_t` as used by tdtls.c: size, address bytes, port,
ifindex.  Its address field holds 16 bytes (IPv6). -/
structure TdSession where
  size : Nat
  addr : List Nat
  port : Nat
  ifindex : Nat
deriving DecidableEq, Inhabited

/-- `_copy_sock_ep` (tdtls.c): copies the sock endpoint's IPv6 address
bytes (16 of them) and port into a DTLS session object. -/
def copySockEp (remote : SockEp) : TdSession :=
  { size := 16 + 2
    addr := remote.addr.take 16
    port := remote.port
    ifindex := remote.netif }

/-- `_copy_tdsec_ep` (tdtls.c): copies the session's address bytes (16)
and port back into a sock endpoint; family is forced to `AF_INET6` and the
netif to `SOCK_ADDR_ANY_NETIF`. -/
def copyTdsecEp (session : TdSession) : SockEp :=
  { family := AF_INET6
    addr := session.addr.take 16
    port := session.port
    netif := SOCK_ADDR_ANY_NETIF }

/-! ## `_handle_req` return-value truncation (gcoap.c) -/

/-- Width of `size_t` on the modelled 32-bit target. -/
def SIZE_T_MOD : Nat := 2 ^ 32

/-- Conversion of a C `ssize_t`-valued expression to the `size_t` return
type of `_handle_req` (two's-complement truncation). -/
def toSizeT (x : Int) : Nat := (x % (SIZE_T_MOD : Int)).toNat

/-- The tail of `_handle_req`: invoke the resource handler; on a negative
return synthesize a 5.00 response.  Both lengths pass through the
`size_t` return type. -/
def handleReqNormal (handlerRet errLen : Int) : Nat :=
  toSizeT (if handlerRet < 0 then errLen else handlerRet)

/-- The return value of `_handle_req` (gcoap.c lines 270-347) as a value
of its declared `size_t` type, keyed by whether `_find_resource` found a
resource, the Observe option (none = absent), the resource handler's
return value and the lengths of the synthesized 4.04 / 5.00 responses.
The Observe bookkeeping itself does not affect the return value except in
the bogus-value branch, which executes `return -1`. -/
def handleReqReturn (resourceFound : Bool) (observe : Option Nat)
    (handlerRet errLen notFoundLen : Int) : Nat :=
  if resourceFound = false then toSizeT notFoundLen
  else
    match observe with
    | some v =>
      if v = 0 ∨ v = 1 then handleReqNormal handlerRet errLen
      else toSizeT (-1)
    | none => handleReqNormal handlerRet errLen

/-- `_listen` (gcoap.c lines 209-220): the response datagram is sent iff
the `size_t` value returned by `_handle_req` is `> 0`. -/
def listenSendsResponse (pduLen : Nat) : Bool := decide (0 < pduLen)

/-! ## Confirmable retransmission timeline (gcoap.c `_event_loop`,
`gcoap_req_send2`) -/

/-- The initial response timeout armed by `gcoap_req_send2` for a
confirmable request: `COAP_ACK_TIMEOUT * US_PER_SEC` (before jitter). -/
def initialConTimeout : Nat := COAP_ACK_TIMEOUT * US_PER_SEC

/-- The un-jittered timeout computed by `_event_loop` when a TIMEOUT
message arrives and `sendLimit` retries remain:
`i = COAP_MAX_RETRANSMIT - send_limit + 1`, `timeout = (COAP_ACK_TIMEOUT << i) * US_PER_SEC`. -/
def retryTimeoutUnjittered (sendLimit : Nat) : Nat :=
  (COAP_ACK_TIMEOUT <<< (COAP_MAX_RETRANSMIT - sendLimit + 1)) * US_PER_SEC

/-- The request memo fields that the retransmission timeline reads and
writes. -/
structure ConMemo where
  state : MemoState
  sendLimit : Int
  hasHandler : Bool
deriving DecidableEq, Inhabited

/-- Observable events of the timeout handling: a retransmission (with the
absolute time at which the timer fired and the newly armed un-jittered
timeout), or an invocation of the response handler with the given memo
state. -/
inductive TimeoutEvent
  | resend (time : Nat) (armed : Nat)
  | handlerCall (st : MemoState)
deriving DecidableEq

/-- `_expire_request` (gcoap.c lines 471-514), restricted to the fields of
`ConMemo`: if the memo is in WAIT, move to TIMEOUT, call the response
handler with that state, then return the memo to the pool (UNUSED). -/
def expireRequest (m : ConMemo) : ConMemo × List TimeoutEvent :=
  if m.state = MemoState.WAIT then
    ({ m with state := MemoState.UNUSED },
     if m.hasHandler then [TimeoutEvent.handlerCall MemoState.TIMEOUT] else [])
  else (m, [])

/-- One `GCOAP_MSG_TYPE_TIMEOUT` message handled by `_event_loop`
(gcoap.c lines 95-123), with jitter disabled (`COAP_RANDOM_FACTOR = 1.0`)
and the UDP resend assumed to succeed.  Returns the updated memo, the
events, and the un-jittered delay armed on the response timer (none if
the timer is not re-armed). -/
def handleTimeoutMsg (m : ConMemo) (now : Nat) :
    ConMemo × List TimeoutEvent × Option Nat :=
  if m.sendLimit = GCOAP_SEND_LIMIT_NON ∨ m.sendLimit = 0 then
    let r := expireRequest m
    (r.1, r.2, none)
  else
    let i : Nat := (Int.ofNat COAP_MAX_RETRANSMIT - m.sendLimit + 1).toNat
    let timeout : Nat := (COAP_ACK_TIMEOUT <<< i) * US_PER_SEC
    ({ m with sendLimit := m.sendLimit - 1 },
     [TimeoutEvent.resend now timeout], some timeout)

/-- Run the timer chain: starting from a memo whose response timer fires
at `fireAt`, handle up to `fuel` TIMEOUT messages, accumulating events. -/
def conRun : Nat → ConMemo → Nat → ConMemo × List TimeoutEvent
  | 0, m, _ => (m, [])
  | fuel + 1, m, fireAt =>
    let r := handleTimeoutMsg m fireAt
    match r.2.2 with
    | none => (r.1, r.2.1)
    | some d =>
      let rest := conRun fuel r.1 (fireAt + d)
      (rest.1, r.2.1 ++ rest.2)

/-- The memo created by `gcoap_req_send2` for a confirmable request
(send_limit initialized to `COAP_MAX_RETRANSMIT`, state WAIT). -/
def initialConMemo : ConMemo :=
  { state := MemoState.WAIT, sendLimit := COAP_MAX_RETRANSMIT, hasHandler := true }

/-- The complete exchange with a remote that never replies: the initial
timer is armed with `initialConTimeout`; `COAP_MAX_RETRANSMIT + 1` timer
firings occur in total. -/
def conExchange : ConMemo × List TimeoutEvent :=
  conRun (COAP_MAX_RETRANSMIT + 1) initialConMemo initialConTimeout

/-- The absolute times (µs) at which the engine transmits the PDU: the
initial send at 0 plus every retransmission. -/
def conTransmitTimes : List Nat :=
  0 :: conExchange.2.filterMap fun e =>
    match e with
    | TimeoutEvent.resend t _ => some t
    | TimeoutEvent.handlerCall _ => none

/-- The un-jittered timeouts armed on successive retransmissions. -/
def conArmedTimeouts : List Nat :=
  conExchange.2.filterMap fun e =>
    match e with
    | TimeoutEvent.resend _ a => some a
    | TimeoutEvent.handlerCall _ => none

/-- How often the response handler was called with a given state. -/
def handlerCallCount (evs : List TimeoutEvent) (s : MemoState) : Nat :=
  evs.countP fun e =>
    match e with
    | TimeoutEvent.handlerCall s2 => s2 = s
    | TimeoutEvent.resend _ _ => false

/-! ## Request memos and `_find_req_memo` (gcoap.c lines 424-465) -/

/-- An open-request slot (`gcoap_request_memo_t`), with the message ID
and token read from the stored PDU header (`hdr_buf` for a
non-confirmable, `pdu_buf` for a confirmable — both hold a CoAP header,
so the reads are uniform), the stored remote endpoint, and flags for the
response timer and the resend buffer's first byte. -/
structure ReqMemo where
  state : MemoState
  sendLimit : Int
  msgid : Nat
  token : List Nat
  remoteEp : SockEp
  timerArmed : Bool
  resendBufInUse : Bool
deriving DecidableEq, Inhabited

/-- `_find_req_memo` with `GCOAP_FIND_REQ_MSGID`: the loop records every
in-use slot whose stored message ID equals the incoming one and never
breaks, so the last (highest-indexed) match is kept.  In this structural
form the tail's match is preferred over the head's. -/
def findReqMemoMsgid (id : Nat) : List ReqMemo → Option Nat
  | [] => none
  | m :: rest =>
    match findReqMemoMsgid id rest with
    | some j => some (j + 1)
    | none =>
      if m.state ≠ MemoState.UNUSED ∧ m.msgid = id then some 0 else none

/-- `_find_req_memo` with `GCOAP_FIND_REQ_TOKEN`: an in-use slot matches
when the stored token length equals the incoming one and (for a nonzero
length) the bytes compare equal — i.e. the token byte lists are equal —
and the loop breaks at the first match. -/
def findReqMemoToken (tk : List Nat) : List ReqMemo → Option Nat
  | [] => none
  | m :: rest =>
    if m.state ≠ MemoState.UNUSED ∧ m.token = tk then some 0
    else (findReqMemoToken tk rest).map (· + 1)

/-! ## Resource lookup -/

/-- `coap_resource_t`: path (a byte string) and method bitmask. -/
structure Resource where
  path : List Nat
  methods : Nat
deriving DecidableEq, Inhabited

/-- A `gcoap_listener_t` node (only the resource array matters to the
claims below). -/
structure Listener where
  resources : List Resource
deriving DecidableEq, Inhabited

/-- Modelled from the spec: `coap_match_path` (the nanocoap codec, not
under src/) compares the request URI with a resource path; its sign is
used exactly like `strcmp((char *)&pdu->url[0], resource->path)` in
`_find_resource` (gcoap.c line 372): positive when the URI sorts after
the resource path (keep scanning), negative when it sorts before
(alphabetical early exit), zero on equality.  Lexicographic byte
comparison. -/
def pathCmp : List Nat → List Nat → Int
  | [], [] => 0
  | [], _ :: _ => -1
  | _ :: _, [] => 1
  | a :: as, b :: bs => if a < b then -1 else if b < a then 1 else pathCmp as bs

/-- `GCOAP_RESOURCE_FOUND` (gcoap_app.h). -/
def GCOAP_RESOURCE_FOUND : Int := 0

/-- `GCOAP_RESOURCE_WRONG_METHOD` (gcoap_app.h). -/
def GCOAP_RESOURCE_WRONG_METHOD : Int := -1

/-- `GCOAP_RESOURCE_NO_PATH` (gcoap_app.h). -/
def GCOAP_RESOURCE_NO_PATH : Int := -2

/-- Inner loop of `gcoap_find_resource` (listener_app.c lines 55-79) over
one listener's resource array, threading the `ret` accumulator: a
path-sorts-after resource is skipped, a path-sorts-before resource breaks
the scan, a path match with a disagreeing method bitmask sets `ret` to
`GCOAP_RESOURCE_WRONG_METHOD` and continues, and a full match returns the
resource. -/
def findResScan (uri : List Nat) (mflag : Nat) :
    List Resource → Int → Option Resource × Int
  | [], ret => (none, ret)
  | r :: rest, ret =>
    if 0 < pathCmp uri r.path then findResScan uri mflag rest ret
    else if pathCmp uri r.path < 0 then (none, ret)
    else if r.methods &&& mflag = 0 then
      findResScan uri mflag rest GCOAP_RESOURCE_WRONG_METHOD
    else (some r, ret)

/-- Outer loop of `gcoap_find_resource` over the listener chain. -/
def findResListeners (uri : List Nat) (mflag : Nat) :
    List Listener → Int → Option Resource × Int
  | [], ret => (none, ret)
  | l :: rest, ret =>
    match findResScan uri mflag l.resources ret with
    | (some r, ret2) => (some r, ret2)
    | (none, ret2) => findResListeners uri mflag rest ret2

/-- `gcoap_find_resource` (listener_app.c lines 40-84): scans the
listener chain starting from `GCOAP_RESOURCE_NO_PATH`; a full match
returns `GCOAP_RESOURCE_FOUND` immediately. -/
def gcoapFindResource (uri : List Nat) (mflag : Nat) (ls : List Listener) : Int :=
  match findResListeners uri mflag ls GCOAP_RESOURCE_NO_PATH with
  | (some _, _) => GCOAP_RESOURCE_FOUND
  | (none, ret) => ret

/-- `COAP_CODE_PATH_NOT_FOUND` (4.04). -/
def COAP_CODE_PATH_NOT_FOUND : Nat := 132

/-- `COAP_CODE_METHOD_NOT_ALLOWED` (4.05). -/
def COAP_CODE_METHOD_NOT_ALLOWED : Nat := 133

/-- Modelled from the spec: the engine variant that consumes
`gcoap_find_resource`'s result is not under src/; per the spec
("`METHOD` — `find_resource` found a path match but method bitmask
disagreed; engine synthesizes `4.05` (method not allowed)", "`NOT_FOUND`
— no path match; `4.04`"), it maps `GCOAP_RESOURCE_WRONG_METHOD` to a
4.05 response and `GCOAP_RESOURCE_NO_PATH` to 4.04. -/
def specEngineErrorCode (findResult : Int) : Nat :=
  if findResult = GCOAP_RESOURCE_WRONG_METHOD then COAP_CODE_METHOD_NOT_ALLOWED
  else COAP_CODE_PATH_NOT_FOUND

/-! ## `gcoap_get_resource_list` (gcoap.c lines 1048-1091) -/

/-- ASCII of the angle brackets and comma written by the listing. -/
def LT_BYTE : Nat := 60

/-- ASCII of the closing angle bracket. -/
def GT_BYTE : Nat := 62

/-- ASCII of the comma separator. -/
def COMMA_BYTE : Nat := 44

/-- Null-buffer pass over one listener's resources:
`pos += (pos) ? 3 : 2; pos += path_len`. -/
def resListSizeScan : List Resource → Nat → Nat
  | [], pos => pos
  | r :: rest, pos =>
    resListSizeScan rest (pos + (if pos = 0 then 2 else 3) + r.path.length)

/-- Null-buffer pass over the listener chain. -/
def resListSizeListeners : List Listener → Nat → Nat
  | [], pos => pos
  | l :: rest, pos => resListSizeListeners rest (resListSizeScan l.resources pos)

/-- Non-null pass over one listener's resources: an entry whose
`pos + path_len + 3` would exceed `maxlen` breaks the inner loop;
otherwise a comma (when `pos` is nonzero), `<`, the path and `>` are
written, advancing `pos` by one byte each (`(pos ? 3 : 2) + path_len` in
total).  Returns the bytes written and the new `pos`. -/
def resListWriteScan (maxlen : Nat) : List Resource → Nat → List Nat × Nat
  | [], pos => ([], pos)
  | r :: rest, pos =>
    if maxlen < pos + r.path.length + 3 then ([], pos)
    else
      ((if pos = 0 then [] else [COMMA_BYTE]) ++
        (LT_BYTE :: ((r.path ++ [GT_BYTE]) ++
          (resListWriteScan maxlen rest
            (pos + (if pos = 0 then 2 else 3) + r.path.length)).1)),
       (resListWriteScan maxlen rest
         (pos + (if pos = 0 then 2 else 3) + r.path.length)).2)

/-- Non-null pass over the listener chain (an inner break moves on to the
next listener with `pos` unchanged). -/
def resListWriteListeners (maxlen : Nat) : List Listener → Nat → List Nat × Nat
  | [], pos => ([], pos)
  | l :: rest, pos =>
    ((resListWriteScan maxlen l.resources pos).1 ++
      (resListWriteListeners maxlen rest
        (resListWriteScan maxlen l.resources pos).2).1,
     (resListWriteListeners maxlen rest
       (resListWriteScan maxlen l.resources pos).2).2)

/-- `gcoap_get_resource_list(NULL, …)`: skips the head listener
(`_coap_state.listeners->next`) and returns the byte count. -/
def getResourceListNull (ls : List Listener) : Nat :=
  resListSizeListeners (ls.drop 1) 0

/-- `gcoap_get_resource_list(buf, maxlen, …)`: skips the head listener
and returns the bytes written and the count. -/
def getResourceListBuf (ls : List Listener) (maxlen : Nat) : List Nat × Nat :=
  resListWriteListeners maxlen (ls.drop 1) 0

/-- The paths of all resources after the head listener, in listing
order. -/
def resListPaths (ls : List Listener) : List (List Nat) :=
  ((ls.drop 1).map Listener.resources).flatten.map Resource.path

/-- Modelled from the spec's words: the CoRE Link Format listing
`<path1>,<path2>,…` — each path wrapped in angle brackets, entries
comma-separated. -/
def linkFormat : List (List Nat) → List Nat
  | [] => []
  | [p] => LT_BYTE :: (p ++ [GT_BYTE])
  | p :: q :: rest => LT_BYTE :: (p ++ (GT_BYTE :: COMMA_BYTE :: linkFormat (q :: rest)))

/-- Helper for relating the write pass to the link format: the segment of
the listing produced for `paths` when `first` tells whether nothing has
been written yet (the next entry then carries no leading comma). -/
def segFormat : Bool → List (List Nat) → List Nat
  | _, [] => []
  | first, p :: rest =>
    ((if first then [] else [COMMA_BYTE]) ++ LT_BYTE :: (p ++ [GT_BYTE])) ++ segFormat false rest

/-! ## Observer and observe-memo tables (gcoap.c lines 602-712, 270-347) -/

/-- The comparison `_find_observer` applies to a non-free slot: compare
the leading `cmplen` address bytes (16 for `AF_INET6`, else 4) and the
port. -/
def epMatch (slot remote : SockEp) : Bool :=
  let cmplen := if slot.family = AF_INET6 then 16 else 4
  decide (slot.addr.take cmplen = remote.addr.take cmplen) && (slot.port == remote.port)

/-- `_find_observer` (gcoap.c lines 602-629): scans the observer array;
a slot with `family == AF_UNSPEC` records the empty-slot index and is
skipped; a matching slot breaks the scan.  Returns (found index, index of
the last empty slot seen before the break). -/
def findObserver (remote : SockEp) : List SockEp → Option Nat × Option Nat
  | [] => (none, none)
  | o :: rest =>
    if o.family = AF_UNSPEC then
      match findObserver remote rest with
      | (f, some e) => (f.map (· + 1), some (e + 1))
      | (f, none) => (f.map (· + 1), some 0)
    else if epMatch o remote then (some 0, none)
    else
      ((findObserver remote rest).1.map (· + 1),
       (findObserver remote rest).2.map (· + 1))

/-- An observe memo (`gcoap_observe_memo_t`): the observer pointer is an
index into the observer array (`none` = free slot), the resource pointer
a resource identifier, and the token the stored bytes (token_len is its
length). -/
structure ObsMemo where
  observer : Option Nat
  resource : Nat
  token : List Nat
deriving DecidableEq, Inhabited

/-- The match `_find_obs_memo` applies to an in-use memo slot: the
observer pointer must equal the one resolved for `remote`, and — unless
the token length argument is `-1` (`tk? = none`) — the token lengths and
bytes must agree. -/
def memoMatch (m : ObsMemo) (remObs : Option Nat) (tk? : Option (List Nat)) : Bool :=
  match m.observer with
  | none => false
  | some j => (some j == remObs) && (tk?.isNone || tk? == some m.token)

/-- `_find_obs_memo` (gcoap.c lines 642-675): resolves `remote` to an
observer pointer (`remObs`), then scans the memo array; a free slot
(`observer == NULL`) records the empty-slot index; a match breaks.
Returns (found index, last empty-slot index seen before the break). -/
def findObsMemo (remObs : Option Nat) (tk? : Option (List Nat)) :
    List ObsMemo → Option Nat × Option Nat
  | [] => (none, none)
  | m :: rest =>
    if m.observer = none then
      match findObsMemo remObs tk? rest with
      | (f, some e) => (f.map (· + 1), some (e + 1))
      | (f, none) => (f.map (· + 1), some 0)
    else if memoMatch m remObs tk? then (some 0, none)
    else
      ((findObsMemo remObs tk? rest).1.map (· + 1),
       (findObsMemo remObs tk? rest).2.map (· + 1))

/-- `_find_obs_memo_resource` (gcoap.c lines 683-694): index of the first
in-use memo recorded for the resource. -/
def findObsMemoResource (r : Nat) : List ObsMemo → Option Nat
  | [] => none
  | m :: rest =>
    if m.observer ≠ none ∧ m.resource = r then some 0
    else (findObsMemoResource r rest).map (· + 1)

/-- The observer and observe-memo tables. -/
structure ObsState where
  observers : List SockEp
  memos : List ObsMemo
deriving DecidableEq

/-- Write `observer := NULL` into the memo at index `i` (other fields
kept). -/
def setMemoObserverNone (memos : List ObsMemo) (i : Nat) : List ObsMemo :=
  memos.set i { memos.getD i default with observer := none }

/-- Free the observer slot at index `j` (`family = AF_UNSPEC`). -/
def freeObserverSlot (observers : List SockEp) (j : Nat) : List SockEp :=
  observers.set j { observers.getD j default with family := AF_UNSPEC }

/-- `_clear_obs_memo` (gcoap.c lines 697-712): clear the memo's observer
pointer; then, if no remaining memo matches `remote` with token length
`-1`, free the observer slot found for `remote`. -/
def clearObsMemo (st : ObsState) (i : Nat) (remote : SockEp) : ObsState :=
  match (findObsMemo (findObserver remote st.observers).1 none
          (setMemoObserverNone st.memos i)).1 with
  | some _ => { observers := st.observers, memos := setMemoObserverNone st.memos i }
  | none =>
    match (findObserver remote st.observers).1 with
    | some j => { observers := freeObserverSlot st.observers j
                  memos := setMemoObserverNone st.memos i }
    | none => { observers := st.observers, memos := setMemoObserverNone st.memos i }

/-- Overwrite the memo at index `i` as lines 315-320 of `_handle_req`
do: observer pointer, resource and token. -/
def writeMemoAt (memos : List ObsMemo) (i : Nat) (obs : Option Nat) (res : Nat)
    (tk : List Nat) : List ObsMemo :=
  memos.set i { observer := obs, resource := res, token := tk }

/-- Result of the Observe-register bookkeeping: the new tables and
whether the Observe option was cleared on the response (the registration
was refused). -/
structure RegResult where
  st : ObsState
  cleared : Bool
deriving DecidableEq

/-- The `COAP_OBS_REGISTER` branch of `_handle_req` (gcoap.c lines
288-325): look up the memo for `(remote, token)`; if none was found,
require an empty memo slot and that the resource has no memo, then find
or cache the observer; on any failure clear the Observe option.  A found
or newly reserved memo is (re)written with the local `observer` variable
— which the found-memo path leaves NULL — the resource, and the token. -/
def handleRegister (st : ObsState) (remote : SockEp) (tk : List Nat) (res : Nat) :
    RegResult :=
  let resourceMemo := findObsMemoResource res st.memos
  let ro := (findObserver remote st.observers).1
  let fm := findObsMemo ro (some tk) st.memos
  match fm.1 with
  | some m =>
    { st := { observers := st.observers, memos := writeMemoAt st.memos m none res tk }
      cleared := false }
  | none =>
    match fm.2, resourceMemo with
    | some e, none =>
      let fo := findObserver remote st.observers
      match fo.1 with
      | some j =>
        { st := { observers := st.observers
                  memos := writeMemoAt st.memos e (some j) res tk }
          cleared := false }
      | none =>
        match fo.2 with
        | some j =>
          { st := { observers := st.observers.set j remote
                    memos := writeMemoAt st.memos e (some j) res tk }
            cleared := false }
        | none => { st := st, cleared := true }
    | _, _ => { st := st, cleared := true }

/-- The `COAP_OBS_DEREGISTER` branch of `_handle_req` (gcoap.c lines
327-333): clear the memo found for `(remote, token)`, if any.  (The
Observe option is always cleared on this path.) -/
def handleDeregister (st : ObsState) (remote : SockEp) (tk : List Nat) : ObsState :=
  match (findObsMemo (findObserver remote st.observers).1 (some tk) st.memos).1 with
  | some m => clearObsMemo st m remote
  | none => st

/-- The observe-memo cleanup performed on an RST to a notification
(`_listen`, gcoap.c lines 181-188) and on terminal timeout
(`_expire_request`, lines 487-498): find the memo for
`(findRemote, token)` and clear it, passing `clearRemote` (the stored
`remote_ep`) to `_clear_obs_memo`. -/
def handleObsCleanup (st : ObsState) (findRemote : SockEp) (tk : List Nat)
    (clearRemote : SockEp) : ObsState :=
  match (findObsMemo (findObserver findRemote st.observers).1 (some tk) st.memos).1 with
  | some m => clearObsMemo st m clearRemote
  | none => st

/-- The engine operations that touch the observe tables. -/
inductive ObsOp
  | register (remote : SockEp) (tk : List Nat) (res : Nat)
  | deregister (remote : SockEp) (tk : List Nat)
  | cleanup (findRemote : SockEp) (tk : List Nat) (clearRemote : SockEp)

/-- A register carries a remote read off the engine's IPv6 UDP sock, so
its address family is a real one, never `AF_UNSPEC`. -/
def ObsOp.valid : ObsOp → Prop
  | ObsOp.register remote _ _ => remote.family ≠ AF_UNSPEC
  | ObsOp.deregister _ _ => True
  | ObsOp.cleanup _ _ _ => True

/-- Apply one operation. -/
def applyObsOp (st : ObsState) : ObsOp → ObsState
  | ObsOp.register remote tk res => (handleRegister st remote tk res).st
  | ObsOp.deregister remote tk => handleDeregister st remote tk
  | ObsOp.cleanup fr tk cr => handleObsCleanup st fr tk cr

/-- Run a list of operations. -/
def runObsOps (st : ObsState) : List ObsOp → ObsState
  | [] => st
  | op :: rest => runObsOps (applyObsOp st op) rest

/-- The tables as `gcoap_init` leaves them: both arrays zeroed
(`family = AF_UNSPEC`, `observer = NULL`). -/
def initObsState (nObs nMemos : Nat) : ObsState :=
  { observers := List.replicate nObs
      { family := AF_UNSPEC, addr := List.replicate 16 0, port := 0, netif := 0 }
    memos := List.replicate nMemos { observer := none, resource := 0, token := [] } }

/-- No two in-use observe memos share the observer pointer and token
(token_len being the token's length). -/
def memoKeyUnique (st : ObsState) : Prop :=
  ∀ i j, i < st.memos.length → j < st.memos.length → i ≠ j →
    (st.memos.getD i default).observer ≠ none →
    (st.memos.getD j default).observer ≠ none →
    ¬((st.memos.getD i default).observer = (st.memos.getD j default).observer ∧
      (st.memos.getD i default).token = (st.memos.getD j default).token)

/-- No two in-use observe memos reference the same resource. -/
def memoResourceUnique (st : ObsState) : Prop :=
  ∀ i j, i < st.memos.length → j < st.memos.length → i ≠ j →
    (st.memos.getD i default).observer ≠ none →
    (st.memos.getD j default).observer ≠ none →
    (st.memos.getD i default).resource ≠ (st.memos.getD j default).resource

/-- Every in-use memo's observer pointer targets an in-use observer
slot. -/
def memoObserverLive (st : ObsState) : Prop :=
  ∀ i, i < st.memos.length →
    ∀ k, (st.memos.getD i default).observer = some k →
      k < st.observers.length ∧ (st.observers.getD k default).family ≠ AF_UNSPEC

/-- The observe-table invariant. -/
def ObsInv (st : ObsState) : Prop :=
  memoKeyUnique st ∧ memoResourceUnique st ∧ memoObserverLive st

/-! ## The EMPTY branch of `_listen` (gcoap.c lines 168-203) -/

/-- The engine state the EMPTY branch reads and writes. -/
structure ListenState where
  openReqs : List ReqMemo
  obs : ObsState
deriving DecidableEq

/-- Processing of an incoming datagram with `code == COAP_CODE_EMPTY`:
match a request memo by message ID; for ACK or RST with `send_limit >= 0`
look up the observe memo for `(remote, stored token)`; only when one
exists is the response timer removed, the memo cleared on RST, the resend
buffer freed and the request memo returned to the pool.  Without an
observe memo the code only logs ("separate response not supported yet")
and changes nothing. -/
def processEmpty (st : ListenState) (remote : SockEp) (typ : CoapType) (id : Nat) :
    ListenState :=
  match findReqMemoMsgid id st.openReqs with
  | none => st
  | some i =>
    let memo := st.openReqs.getD i default
    if (typ = CoapType.ACK ∨ typ = CoapType.RST) ∧ 0 ≤ memo.sendLimit then
      let ro := (findObserver remote st.obs.observers).1
      match (findObsMemo ro (some memo.token) st.obs.memos).1 with
      | some oi =>
        let obs2 := if typ = CoapType.RST then clearObsMemo st.obs oi memo.remoteEp
                    else st.obs
        { openReqs := st.openReqs.set i
            { memo with state := MemoState.UNUSED, timerArmed := false,
                        resendBufInUse := false }
          obs := obs2 }
      | none => st
    else st

/-! ## `gcoap_req_send2` (gcoap.c lines 830-949) -/

/-- An open-request slot as `gcoap_req_send2` manipulates it. -/
structure SendMemo where
  state : MemoState
  sendLimit : Int
  hasHandler : Bool
deriving DecidableEq, Inhabited

/-- The tables `gcoap_req_send2` touches: open-request slots and resend
buffers (`true` = first byte nonzero = in use). -/
structure SendState where
  openReqs : List SendMemo
  resendBufs : List Bool
deriving DecidableEq

/-- First slot with `state == GCOAP_MEMO_UNUSED`. -/
def findUnusedSlot : List SendMemo → Option Nat
  | [] => none
  | m :: rest =>
    if m.state = MemoState.UNUSED then some 0
    else (findUnusedSlot rest).map (· + 1)

/-- The resend-buffer loop (gcoap.c lines 870-876) has no break: it
copies the PDU into every free buffer and keeps a pointer to the last
one.  This returns that last free index. -/
def lastFreeBuf : List Bool → Option Nat
  | [] => none
  | b :: rest =>
    match lastFreeBuf rest with
    | some j => some (j + 1)
    | none => if b then none else some 0

/-- After the loop every buffer holds a copied PDU whose first byte (the
CoAP version/type/tkl byte, 0x40-0x7f) is nonzero. -/
def markAllBufsUsed (bufs : List Bool) : List Bool :=
  bufs.map fun _ => true

/-- Update the state field of slot `i`. -/
def setSlotState (reqs : List SendMemo) (i : Nat) (s : MemoState) : List SendMemo :=
  reqs.set i { reqs.getD i default with state := s }

/-- Result of `gcoap_req_send2`: the new tables and the returned
`size_t` (0 on failure; the successful sock result is abstracted to 1). -/
structure SendResult where
  st : SendState
  ret : Nat
deriving DecidableEq

/-- Clear the first byte of the buffer memo points to (the failure path
`*memo->msg.data.pdu_buf = 0`). -/
def clearBufAt (bufs : List Bool) (i? : Option Nat) : List Bool :=
  match i? with
  | none => bufs
  | some i => bufs.set i false

/-- `gcoap_req_send2` in the default asynchronous configuration
(`GCOAP_SEND_WAIT_FOR_RESPONSE = 0`, `GCOAP_RESEND_BUFS_MAX > 0`), with
the results of `sock_udp_send` and `mbox_try_put` passed in as `sendOk`
and `mboxOk`.  The handler field is written before the message-type
switch, as in the C.  Jitter is irrelevant to the modelled fields. -/
def reqSend2 (st : SendState) (msgType : CoapType) (hasHandler : Bool)
    (sendOk : Bool) (mboxOk : Bool) : SendResult :=
  match findUnusedSlot st.openReqs with
  | none => { st := st, ret := 0 }
  | some i =>
    let reqs1 := st.openReqs.set i
      { st.openReqs.getD i default with state := MemoState.WAIT,
                                        hasHandler := hasHandler }
    match msgType with
    | CoapType.CON =>
      let chosen := lastFreeBuf st.resendBufs
      let bufs1 := markAllBufsUsed st.resendBufs
      match chosen with
      | some _ =>
        let reqs2 := reqs1.set i
          { reqs1.getD i default with sendLimit := (COAP_MAX_RETRANSMIT : Int) }
        if sendOk then
          if mboxOk then
            { st := { openReqs := reqs2, resendBufs := bufs1 }, ret := 1 }
          else
            { st := { openReqs := setSlotState reqs2 i MemoState.UNUSED
                      resendBufs := clearBufAt bufs1 chosen }
              ret := 0 }
        else
          { st := { openReqs := setSlotState reqs2 i MemoState.UNUSED
                    resendBufs := clearBufAt bufs1 chosen }
            ret := 0 }
      | none =>
        { st := { openReqs := setSlotState reqs1 i MemoState.UNUSED
                  resendBufs := bufs1 }
          ret := 0 }
    | CoapType.NON =>
      let reqs2 := reqs1.set i
        { reqs1.getD i default with sendLimit := GCOAP_SEND_LIMIT_NON }
      if sendOk then
        if mboxOk then
          { st := { openReqs := reqs2, resendBufs := st.resendBufs }, ret := 1 }
        else
          { st := { openReqs := setSlotState reqs2 i MemoState.UNUSED
                    resendBufs := st.resendBufs }
            ret := 0 }
      else
        { st := { openReqs := setSlotState reqs2 i MemoState.UNUSED
                  resendBufs := st.resendBufs }
          ret := 0 }
    | _ =>
      { st := { openReqs := setSlotState reqs1 i MemoState.UNUSED
                resendBufs := st.resendBufs }
        ret := 0 }

/-! ## Concrete fixtures for counterexamples and witnesses -/

/-- A concrete IPv6 remote endpoint. -/
def r1C : SockEp :=
  { family := AF_INET6, addr := List.replicate 16 1, port := 1000, netif := 0 }

/-- A concrete in-use confirmable request memo (message ID 7, token
`[7]`, remote `r1C`). -/
def reqMemoC : ReqMemo :=
  { state := MemoState.WAIT, sendLimit := 4, msgid := 7, token := [7],
    remoteEp := r1C, timerArmed := true, resendBufInUse := true }

/-- Engine state with one outstanding confirmable request and empty
observe tables. -/
def listenStateNoObs : ListenState :=
  { openReqs := [reqMemoC], obs := initObsState 1 1 }

/-- Observe tables holding one observer (`r1C`) and one memo for
resource 5 with token `[7]`. -/
def obsStateOne : ObsState :=
  { observers := [r1C]
    memos := [{ observer := some 0, resource := 5, token := [7] }] }

/-- Engine state with one outstanding confirmable request whose
`(remote, token)` pair has an observe memo. -/
def listenStateWithObs : ListenState :=
  { openReqs := [reqMemoC], obs := obsStateOne }

/-- Two in-use memos that share message ID 7. -/
def twoMemosC : List ReqMemo := [reqMemoC, reqMemoC]

/-- Two in-use memos that both store the zero-length token. -/
def zeroTokMemosC : List ReqMemo :=
  [{ reqMemoC with token := [] }, { reqMemoC with token := [] }]

/-- A concrete in-use slot for the submission-path table. -/
def reqSendMemoC : SendMemo :=
  { state := MemoState.WAIT, sendLimit := 4, hasHandler := true }

/-- A listener chain: the built-in head listener (skipped by the
listing) followed by one listener providing "/a" and "/b/c". -/
def listenersC8 : List Listener :=
  [{ resources := [{ path := [47, 119], methods := 1 }] },
   { resources := [{ path := [47, 97], methods := 1 },
                   { path := [47, 98, 47, 99], methods := 1 }] }]

/-! # Helper lemmas -/

theorem getD_set_self {α : Type} :
    ∀ (l : List α) (i : Nat) (x d : α), i < l.length → (l.set i x).getD i d = x
  | _ :: _, 0, _, _, _ => rfl
  | _ :: l, i + 1, x, d, h => getD_set_self l i x d (Nat.lt_of_succ_lt_succ h)

theorem getD_set_ne {α : Type} :
    ∀ (l : List α) (i j : Nat) (x d : α), i ≠ j → (l.set i x).getD j d = l.getD j d
  | [], _, _, _, _, _ => rfl
  | _ :: _, 0, 0, _, _, h => absurd rfl h
  | _ :: _, 0, _ + 1, _, _, _ => rfl
  | _ :: _, _ + 1, 0, _, _, _ => rfl
  | _ :: l, i + 1, j + 1, x, d, h =>
    getD_set_ne l i j x d (fun e => h (congrArg Nat.succ e))

theorem getD_replicate {α : Type} :
    ∀ (n i : Nat) (x d : α), i < n → (List.replicate n x).getD i d = x
  | _ + 1, 0, _, _, _ => rfl
  | n + 1, i + 1, x, d, h => getD_replicate n i x d (Nat.lt_of_succ_lt_succ h)

/-! # C9: DTLS endpoint round-trip -/

/-- C9: converting a UDP endpoint to a DTLS session with `_copy_sock_ep`
and back with `_copy_tdsec_ep` preserves the 16 IPv6 address bytes and
the port. -/
theorem tdtls_ep_roundtrip (ep : SockEp) (h : ep.addr.length = 16) :
    (copyTdsecEp (copySockEp ep)).addr = ep.addr ∧
    (copyTdsecEp (copySockEp ep)).port = ep.port := by
  have htake : ep.addr.take 16 = ep.addr := List.take_of_length_le (le_of_eq h)
  exact ⟨by simp [copySockEp, copyTdsecEp, htake], rfl⟩

/-- Witness for C9 at a concrete 16-byte endpoint. -/
theorem tdtls_ep_roundtrip_witness :
    (copyTdsecEp (copySockEp r1C)).addr = r1C.addr ∧
    (copyTdsecEp (copySockEp r1C)).port = r1C.port :=
  tdtls_ep_roundtrip r1C (by decide)

/-! # C2: requests with a bogus Observe value -/

/-- C2 (code bug): for an incoming request that matches a resource and
carries an Observe option with value 5, `_handle_req` executes
`return -1`, which its `size_t` return type turns into `2^32 - 1`, so
`_listen`'s `pdu_len > 0` check passes and `sock_udp_send` IS called —
the engine does respond, contradicting the claim (and `_handle_req`'s
own documentation "return … < 0 if can't handle", which its unsigned
return type cannot represent). -/
theorem handle_req_bogus_observe_sends :
    handleReqReturn true (some 5) 0 0 0 = 2 ^ 32 - 1 ∧
    listenSendsResponse (handleReqReturn true (some 5) 0 0 0) = true := by
  exact ⟨rfl, rfl⟩

/-! # C3: confirmable retransmission schedule -/

/-- C3 (counterexample): the engine does not transmit at t = 0, 2, 4, 8,
16 seconds. -/
theorem con_transmit_times_not_claimed :
    conTransmitTimes ≠ [0, 2, 4, 8, 16].map (· * US_PER_SEC) := by
  decide

/-- C3 (amended): with jitter disabled the transmissions occur at
t = 0, 2, 6, 14, 30 seconds (each retry k waits `ACK_TIMEOUT · 2^k`
seconds after the previous transmission); the timeout armed when
`send_limit` retries remain is `ACK_TIMEOUT · 2^(MAX_RETRANSMIT −
send_limit + 1) · US_PER_SEC` (so `2^k` on the k-th retry), the initial
timeout is `ACK_TIMEOUT · US_PER_SEC`, and after the final retry the
response handler is called exactly once with state TIMEOUT and the memo
returns to UNUSED. -/
theorem con_retransmission_schedule :
    conTransmitTimes = [0, 2, 6, 14, 30].map (· * US_PER_SEC) ∧
    conArmedTimeouts = [1, 2, 3, 4].map (fun k => COAP_ACK_TIMEOUT * 2 ^ k * US_PER_SEC) ∧
    initialConTimeout = COAP_ACK_TIMEOUT * US_PER_SEC ∧
    (∀ s : Nat, retryTimeoutUnjittered s =
      COAP_ACK_TIMEOUT * 2 ^ (COAP_MAX_RETRANSMIT - s + 1) * US_PER_SEC) ∧
    handlerCallCount conExchange.2 MemoState.TIMEOUT = 1 ∧
    conExchange.1.state = MemoState.UNUSED := by
  refine ⟨by decide, by decide, rfl, ?_, by decide, by decide⟩
  intro s
  rw [retryTimeoutUnjittered, Nat.shiftLeft_eq]

/-! # `_find_req_memo` characterizations (C7, C10) -/

theorem findReqMemoToken_none (tk : List Nat) :
    ∀ (reqs : List ReqMemo), findReqMemoToken tk reqs = none →
      ∀ j, j < reqs.length →
        ¬((reqs.getD j default).state ≠ MemoState.UNUSED ∧
          (reqs.getD j default).token = tk) := by
  intro reqs
  induction reqs with
  | nil => intro _ j hj; exact absurd hj (Nat.not_lt_zero j)
  | cons m rest ih =>
    intro h j hj
    rw [findReqMemoToken] at h
    by_cases hm : m.state ≠ MemoState.UNUSED ∧ m.token = tk
    · rw [if_pos hm] at h; exact absurd h (by simp)
    · rw [if_neg hm] at h
      have hrest : findReqMemoToken tk rest = none := by
        cases hr : findReqMemoToken tk rest with
        | none => rfl
        | some k => rw [hr] at h; simp at h
      cases j with
      | zero => exact hm
      | succ j2 =>
        have h2 := ih hrest j2 (Nat.lt_of_succ_lt_succ hj)
        simpa using h2

theorem findReqMemoToken_iff (tk : List Nat) :
    ∀ (reqs : List ReqMemo) (i : Nat),
      findReqMemoToken tk reqs = some i ↔
        (i < reqs.length ∧
         (reqs.getD i default).state ≠ MemoState.UNUSED ∧
         (reqs.getD i default).token = tk ∧
         ∀ j, j < i → ¬((reqs.getD j default).state ≠ MemoState.UNUSED ∧
                        (reqs.getD j default).token = tk)) := by
  intro reqs
  induction reqs with
  | nil =>
    intro i
    constructor
    · intro h; rw [findReqMemoToken] at h; exact absurd h (by simp)
    · intro h; exact absurd h.1 (Nat.not_lt_zero i)
  | cons m rest ih =>
    intro i
    rw [findReqMemoToken]
    by_cases hm : m.state ≠ MemoState.UNUSED ∧ m.token = tk
    · rw [if_pos hm]
      constructor
      · intro h
        have hi : i = 0 := by
          have h2 := Option.some.inj h
          omega
        subst hi
        exact ⟨Nat.succ_pos _, hm.1, hm.2,
               fun j hj => absurd hj (Nat.not_lt_zero j)⟩
      · rintro ⟨hlen, hst, htk, hfirst⟩
        cases i with
        | zero => rfl
        | succ i2 => exact absurd hm (hfirst 0 (Nat.succ_pos i2))
    · rw [if_neg hm]
      cases i with
      | zero =>
        constructor
        · intro h
          cases hr : findReqMemoToken tk rest with
          | none => rw [hr] at h; simp at h
          | some k => rw [hr] at h; simp at h
        · rintro ⟨hlen, hst, htk, _⟩
          exact absurd ⟨hst, htk⟩ hm
      | succ i2 =>
        constructor
        · intro h
          cases hr : findReqMemoToken tk rest with
          | none => rw [hr] at h; simp at h
          | some k =>
            rw [hr] at h
            simp at h
            have hik : i2 = k := by omega
            subst hik
            obtain ⟨hlen, hst, htk, hfirst⟩ := (ih i2).mp hr
            refine ⟨Nat.succ_lt_succ hlen, hst, htk, ?_⟩
            intro j hj
            cases j with
            | zero => exact hm
            | succ j2 => exact hfirst j2 (Nat.lt_of_succ_lt_succ hj)
        · rintro ⟨hlen, hst, htk, hfirst⟩
          have hrest : findReqMemoToken tk rest = some i2 := by
            apply (ih i2).mpr
            refine ⟨Nat.lt_of_succ_lt_succ hlen, hst, htk, ?_⟩
            intro j hj
            have h2 := hfirst (j + 1) (Nat.succ_lt_succ hj)
            simpa using h2
          rw [hrest]; rfl

theorem findReqMemoMsgid_none (id : Nat) :
    ∀ (reqs : List ReqMemo), findReqMemoMsgid id reqs = none →
      ∀ j, j < reqs.length →
        ¬((reqs.getD j default).state ≠ MemoState.UNUSED ∧
          (reqs.getD j default).msgid = id) := by
  intro reqs
  induction reqs with
  | nil => intro _ j hj; exact absurd hj (Nat.not_lt_zero j)
  | cons m rest ih =>
    intro h j hj
    rw [findReqMemoMsgid] at h
    cases hr : findReqMemoMsgid id rest with
    | some k => rw [hr] at h; simp at h
    | none =>
      rw [hr] at h
      have hm : ¬(m.state ≠ MemoState.UNUSED ∧ m.msgid = id) := by
        by_contra hc
        rw [if_pos hc] at h
        simp at h
      cases j with
      | zero => exact hm
      | succ j2 =>
        have h2 := ih hr j2 (Nat.lt_of_succ_lt_succ hj)
        simpa using h2

theorem findReqMemoMsgid_iff (id : Nat) :
    ∀ (reqs : List ReqMemo) (i : Nat),
      findReqMemoMsgid id reqs = some i ↔
        (i < reqs.length ∧
         (reqs.getD i default).state ≠ MemoState.UNUSED ∧
         (reqs.getD i default).msgid = id ∧
         ∀ j, i < j → j < reqs.length →
           ¬((reqs.getD j default).state ≠ MemoState.UNUSED ∧
             (reqs.getD j default).msgid = id)) := by
  intro reqs
  induction reqs with
  | nil =>
    intro i
    constructor
    · intro h; rw [findReqMemoMsgid] at h; exact absurd h (by simp)
    · intro h; exact absurd h.1 (Nat.not_lt_zero i)
  | cons m rest ih =>
    intro i
    rw [findReqMemoMsgid]
    cases hr : findReqMemoMsgid id rest with
    | some k =>
      obtain ⟨hklen, hkst, hkid, hklast⟩ := (ih k).mp hr
      constructor
      · intro h
        have hi : i = k + 1 := by
          have h2 := Option.some.inj h
          omega
        subst hi
        refine ⟨Nat.succ_lt_succ hklen, hkst, hkid, ?_⟩
        intro j hj hjlen
        cases j with
        | zero => exact absurd hj (Nat.not_lt_zero _)
        | succ j2 =>
          have h2 := hklast j2 (Nat.lt_of_succ_lt_succ hj)
            (Nat.lt_of_succ_lt_succ hjlen)
          simpa using h2
      · rintro ⟨hlen, hst, hid, hlast⟩
        cases i with
        | zero =>
          exfalso
          have h2 := hlast (k + 1) (Nat.succ_pos k) (Nat.succ_lt_succ hklen)
          exact h2 (by simpa using And.intro hkst hkid)
        | succ i2 =>
          have hrest : findReqMemoMsgid id rest = some i2 := by
            apply (ih i2).mpr
            refine ⟨Nat.lt_of_succ_lt_succ hlen, hst, hid, ?_⟩
            intro j hj hjlen
            have h2 := hlast (j + 1) (Nat.succ_lt_succ hj) (Nat.succ_lt_succ hjlen)
            simpa using h2
          rw [hr] at hrest
          have hik : k = i2 := Option.some.inj hrest
          subst hik
          rfl
    | none =>
      have hnone := findReqMemoMsgid_none id rest hr
      constructor
      · intro h
        have hm : m.state ≠ MemoState.UNUSED ∧ m.msgid = id := by
          by_contra hc
          rw [if_neg hc] at h
          simp at h
        rw [if_pos hm] at h
        have hi : i = 0 := by
          have h2 := Option.some.inj h
          omega
        subst hi
        refine ⟨Nat.succ_pos _, hm.1, hm.2, ?_⟩
        intro j hj hjlen
        cases j with
        | zero => exact absurd hj (Nat.lt_irrefl 0)
        | succ j2 =>
          have h2 := hnone j2 (Nat.lt_of_succ_lt_succ hjlen)
          simpa using h2
      · rintro ⟨hlen, hst, hid, hlast⟩
        cases i with
        | zero =>
          rw [if_pos ⟨hst, hid⟩]
        | succ i2 =>
          exfalso
          have h2 := hnone i2 (Nat.lt_of_succ_lt_succ hlen)
          exact h2 ⟨hst, hid⟩

/-- C7: a response PDU matched by token matches a memo only if the
stored token equals the incoming one as a byte list (equal lengths and
equal bytes), and the first in-use memo in slot order with that token is
the one matched; with an incoming token of length zero this is the first
in-use memo whose stored token has length zero. -/
theorem find_req_memo_token_matching (tk : List Nat) (reqs : List ReqMemo) (i : Nat) :
    findReqMemoToken tk reqs = some i ↔
      (i < reqs.length ∧
       (reqs.getD i default).state ≠ MemoState.UNUSED ∧
       (reqs.getD i default).token = tk ∧
       ∀ j, j < i → ¬((reqs.getD j default).state ≠ MemoState.UNUSED ∧
                      (reqs.getD j default).token = tk)) :=
  findReqMemoToken_iff tk reqs i

/-- Witness for C7: in a table whose two in-use memos both store the
zero-length token, the incoming zero-length token matches slot 0 — the
first in-use memo with a zero-length stored token. -/
theorem find_req_memo_token_matching_witness :
    0 < zeroTokMemosC.length ∧
    (zeroTokMemosC.getD 0 default).state ≠ MemoState.UNUSED ∧
    (zeroTokMemosC.getD 0 default).token = [] ∧
    ∀ j, j < 0 → ¬((zeroTokMemosC.getD j default).state ≠ MemoState.UNUSED ∧
                   (zeroTokMemosC.getD j default).token = []) :=
  (find_req_memo_token_matching [] zeroTokMemosC 0).mp (by decide)

/-- C10: matching by message ID keeps overwriting the result without
breaking, so it reports the highest-indexed in-use memo whose stored
message ID equals the incoming one; token matching (contrast) breaks at
the first matching slot. -/
theorem find_req_memo_msgid_last (id : Nat) (tk : List Nat)
    (reqs : List ReqMemo) (i : Nat) :
    (findReqMemoMsgid id reqs = some i ↔
      (i < reqs.length ∧
       (reqs.getD i default).state ≠ MemoState.UNUSED ∧
       (reqs.getD i default).msgid = id ∧
       ∀ j, i < j → j < reqs.length →
         ¬((reqs.getD j default).state ≠ MemoState.UNUSED ∧
           (reqs.getD j default).msgid = id))) ∧
    (findReqMemoToken tk reqs = some i ↔
      (i < reqs.length ∧
       (reqs.getD i default).state ≠ MemoState.UNUSED ∧
       (reqs.getD i default).token = tk ∧
       ∀ j, j < i → ¬((reqs.getD j default).state ≠ MemoState.UNUSED ∧
                      (reqs.getD j default).token = tk))) :=
  ⟨findReqMemoMsgid_iff id reqs i, findReqMemoToken_iff tk reqs i⟩

/-- Witness for C10: with two in-use memos both carrying message ID 7,
the message-ID mode returns slot 1 — the later slot — which therefore is
in use, stores ID 7, and is followed by no further match; the token mode
returns slot 0. -/
theorem find_req_memo_msgid_last_witness :
    (1 < twoMemosC.length ∧
     (twoMemosC.getD 1 default).state ≠ MemoState.UNUSED ∧
     (twoMemosC.getD 1 default).msgid = 7 ∧
     ∀ j, 1 < j → j < twoMemosC.length →
       ¬((twoMemosC.getD j default).state ≠ MemoState.UNUSED ∧
         (twoMemosC.getD j default).msgid = 7)) ∧
    findReqMemoToken [7] twoMemosC = some 0 :=
  ⟨(find_req_memo_msgid_last 7 [7] twoMemosC 1).1.mp (by decide),
   (find_req_memo_msgid_last 7 [7] twoMemosC 0).2.mpr (by decide)⟩

/-! # C5: wrong-method resource lookup -/

theorem pathCmp_self : ∀ (a : List Nat), pathCmp a a = 0
  | [] => rfl
  | x :: xs => by
    rw [pathCmp, if_neg (lt_irrefl x), if_neg (lt_irrefl x)]
    exact pathCmp_self xs

theorem pathCmp_eq_zero : ∀ {a b : List Nat}, pathCmp a b = 0 → a = b
  | [], [], _ => rfl
  | [], _ :: _, h => by rw [pathCmp] at h; exact absurd h (by decide)
  | _ :: _, [], h => by rw [pathCmp] at h; exact absurd h (by decide)
  | x :: xs, y :: ys, h => by
    rw [pathCmp] at h
    by_cases hxy : x < y
    · rw [if_pos hxy] at h; exact absurd h (by decide)
    · rw [if_neg hxy] at h
      by_cases hyx : y < x
      · rw [if_pos hyx] at h; exact absurd h (by decide)
      · rw [if_neg hyx] at h
        have hx : x = y := Nat.le_antisymm (Nat.le_of_not_lt hyx) (Nat.le_of_not_lt hxy)
        rw [hx, pathCmp_eq_zero h]

theorem pathCmp_swap : ∀ (a b : List Nat), pathCmp a b = -pathCmp b a
  | [], [] => rfl
  | [], _ :: _ => rfl
  | _ :: _, [] => rfl
  | x :: xs, y :: ys => by
    rw [pathCmp, pathCmp]
    by_cases hxy : x < y
    · have hyx : ¬y < x := Nat.lt_asymm hxy
      rw [if_pos hxy, if_neg hyx, if_pos hxy]
    · by_cases hyx : y < x
      · rw [if_neg hxy, if_pos hyx, if_pos hyx]
        rfl
      · rw [if_neg hxy, if_neg hyx, if_neg hyx, if_neg hxy]
        exact pathCmp_swap xs ys

theorem findResScan_no_match (uri : List Nat) (mflag : Nat) :
    ∀ (rs : List Resource) (ret : Int),
      (∀ r ∈ rs, ¬(r.path = uri ∧ r.methods &&& mflag ≠ 0)) →
      (findResScan uri mflag rs ret).1 = none ∧
      ((findResScan uri mflag rs ret).2 = ret ∨
       (findResScan uri mflag rs ret).2 = GCOAP_RESOURCE_WRONG_METHOD) := by
  intro rs
  induction rs with
  | nil => intro ret _; exact ⟨rfl, Or.inl rfl⟩
  | cons r rest ih =>
    intro ret hno
    rw [findResScan]
    by_cases h1 : 0 < pathCmp uri r.path
    · rw [if_pos h1]
      exact ih ret (fun r2 hr2 => hno r2 (List.mem_cons_of_mem r hr2))
    · rw [if_neg h1]
      by_cases h2 : pathCmp uri r.path < 0
      · rw [if_pos h2]; exact ⟨rfl, Or.inl rfl⟩
      · rw [if_neg h2]
        have hpath : uri = r.path := by
          apply pathCmp_eq_zero
          omega
        have hmeth : r.methods &&& mflag = 0 := by
          by_contra hc
          exact hno r (List.mem_cons_self r rest) ⟨hpath.symm, hc⟩
        rw [if_pos hmeth]
        have h3 := ih GCOAP_RESOURCE_WRONG_METHOD
          (fun r2 hr2 => hno r2 (List.mem_cons_of_mem r hr2))
        exact ⟨h3.1, Or.inr (h3.2.elim id id)⟩

theorem findResScan_wrong (uri : List Nat) (mflag : Nat) :
    ∀ (rs : List Resource) (ret : Int),
      rs.Pairwise (fun a b => pathCmp a.path b.path ≤ 0) →
      (∃ t ∈ rs, t.path = uri ∧ t.methods &&& mflag = 0) →
      (∀ r ∈ rs, ¬(r.path = uri ∧ r.methods &&& mflag ≠ 0)) →
      findResScan uri mflag rs ret = (none, GCOAP_RESOURCE_WRONG_METHOD) := by
  intro rs
  induction rs with
  | nil => intro ret _ hex _; exact absurd hex (by simp)
  | cons r rest ih =>
    intro ret hsort hex hno
    rw [findResScan]
    by_cases h1 : 0 < pathCmp uri r.path
    · rw [if_pos h1]
      have hrnot : r.path ≠ uri := by
        intro he
        rw [he, pathCmp_self] at h1
        exact absurd h1 (by decide)
      obtain ⟨t, ht, htp, htm⟩ := hex
      have htr : t ∈ rest := by
        cases List.mem_cons.mp ht with
        | inl he => exact absurd (he ▸ htp) hrnot
        | inr h => exact h
      exact ih ret (List.Pairwise.sublist (List.sublist_cons_self r rest) hsort)
        ⟨t, htr, htp, htm⟩ (fun r2 hr2 => hno r2 (List.mem_cons_of_mem r hr2))
    · rw [if_neg h1]
      by_cases h2 : pathCmp uri r.path < 0
      · exfalso
        obtain ⟨t, ht, htp, htm⟩ := hex
        cases List.mem_cons.mp ht with
        | inl he =>
          rw [← he, htp, pathCmp_self] at h2
          exact absurd h2 (by decide)
        | inr htr =>
          have hle : pathCmp r.path t.path ≤ 0 :=
            (List.pairwise_cons.mp hsort).1 t htr
          rw [htp] at hle
          rw [pathCmp_swap uri r.path] at h2
          omega
      · rw [if_neg h2]
        have hpath : uri = r.path := by
          apply pathCmp_eq_zero
          omega
        have hmeth : r.methods &&& mflag = 0 := by
          by_contra hc
          exact hno r (List.mem_cons_self r rest) ⟨hpath.symm, hc⟩
        rw [if_pos hmeth]
        have h3 := findResScan_no_match uri mflag rest GCOAP_RESOURCE_WRONG_METHOD
          (fun r2 hr2 => hno r2 (List.mem_cons_of_mem r hr2))
        have h4 : (findResScan uri mflag rest GCOAP_RESOURCE_WRONG_METHOD).2 =
            GCOAP_RESOURCE_WRONG_METHOD := h3.2.elim id id
        calc findResScan uri mflag rest GCOAP_RESOURCE_WRONG_METHOD
            = ((findResScan uri mflag rest GCOAP_RESOURCE_WRONG_METHOD).1,
               (findResScan uri mflag rest GCOAP_RESOURCE_WRONG_METHOD).2) := rfl
          _ = (none, GCOAP_RESOURCE_WRONG_METHOD) := by rw [h3.1, h4]

theorem findResListeners_no_match (uri : List Nat) (mflag : Nat) :
    ∀ (ls : List Listener) (ret : Int),
      (∀ l ∈ ls, ∀ r ∈ l.resources, ¬(r.path = uri ∧ r.methods &&& mflag ≠ 0)) →
      (findResListeners uri mflag ls ret).1 = none ∧
      ((findResListeners uri mflag ls ret).2 = ret ∨
       (findResListeners uri mflag ls ret).2 = GCOAP_RESOURCE_WRONG_METHOD) := by
  intro ls
  induction ls with
  | nil => intro ret _; exact ⟨rfl, Or.inl rfl⟩
  | cons l rest ih =>
    intro ret hno
    rw [findResListeners]
    have h1 := findResScan_no_match uri mflag l.resources ret
      (hno l (List.mem_cons_self l rest))
    rcases hscan : findResScan uri mflag l.resources ret with ⟨f, ret2⟩
    rw [hscan] at h1
    cases f with
    | some r => exact absurd h1.1 (by simp)
    | none =>
      have h2 := ih ret2 (fun l2 hl2 => hno l2 (List.mem_cons_of_mem l hl2))
      refine ⟨h2.1, ?_⟩
      cases h2.2 with
      | inl he =>
        cases h1.2 with
        | inl he2 => exact Or.inl (he.trans he2)
        | inr he2 => exact Or.inr (he.trans he2)
      | inr he => exact Or.inr he

theorem findResListeners_wrong (uri : List Nat) (mflag : Nat) :
    ∀ (ls : List Listener) (ret : Int),
      (∀ l ∈ ls, l.resources.Pairwise (fun a b => pathCmp a.path b.path ≤ 0)) →
      (∃ l ∈ ls, ∃ t ∈ l.resources, t.path = uri ∧ t.methods &&& mflag = 0) →
      (∀ l ∈ ls, ∀ r ∈ l.resources, ¬(r.path = uri ∧ r.methods &&& mflag ≠ 0)) →
      findResListeners uri mflag ls ret = (none, GCOAP_RESOURCE_WRONG_METHOD) := by
  intro ls
  induction ls with
  | nil => intro ret _ hex _; exact absurd hex (by simp)
  | cons l rest ih =>
    intro ret hsort hex hno
    rw [findResListeners]
    obtain ⟨l2, hl2, t, ht, htp, htm⟩ := hex
    cases List.mem_cons.mp hl2 with
    | inl he =>
      rw [he] at ht
      rw [findResScan_wrong uri mflag l.resources ret
        (hsort l (List.mem_cons_self l rest)) ⟨t, ht, htp, htm⟩
        (hno l (List.mem_cons_self l rest))]
      have h2 := findResListeners_no_match uri mflag rest GCOAP_RESOURCE_WRONG_METHOD
        (fun l3 hl3 => hno l3 (List.mem_cons_of_mem l hl3))
      rcases hrec : findResListeners uri mflag rest GCOAP_RESOURCE_WRONG_METHOD
        with ⟨f, ret2⟩
      rw [hrec] at h2
      cases f with
      | some r => exact absurd h2.1 (by simp)
      | none =>
        have hret : ret2 = GCOAP_RESOURCE_WRONG_METHOD := h2.2.elim id id
        show findResListeners uri mflag rest GCOAP_RESOURCE_WRONG_METHOD =
          (none, GCOAP_RESOURCE_WRONG_METHOD)
        rw [hrec, hret]
    | inr hlr =>
      have h1 := findResScan_no_match uri mflag l.resources ret
        (hno l (List.mem_cons_self l rest))
      rcases hscan : findResScan uri mflag l.resources ret with ⟨f, ret2⟩
      rw [hscan] at h1
      cases f with
      | some r => exact absurd h1.1 (by simp)
      | none =>
        exact ih ret2 (fun l3 hl3 => hsort l3 (List.mem_cons_of_mem l hl3))
          ⟨l2, hlr, t, ht, htp, htm⟩
          (fun l3 hl3 => hno l3 (List.mem_cons_of_mem l hl3))

/-- C5: when some registered resource's path equals the request URI but
its method bitmask excludes the request method, and no resource matches
both path and method (resources alphabetically sorted within each
listener as the scan requires), `gcoap_find_resource` returns
`GCOAP_RESOURCE_WRONG_METHOD` — not `GCOAP_RESOURCE_NO_PATH` — and the
engine (modelled from the spec) synthesizes a 4.05 response rather than
4.04. -/
theorem find_resource_wrong_method (uri : List Nat) (mflag : Nat) (ls : List Listener)
    (hsort : ∀ l ∈ ls, l.resources.Pairwise (fun a b => pathCmp a.path b.path ≤ 0))
    (hex : ∃ l ∈ ls, ∃ t ∈ l.resources, t.path = uri ∧ t.methods &&& mflag = 0)
    (hno : ∀ l ∈ ls, ∀ r ∈ l.resources, ¬(r.path = uri ∧ r.methods &&& mflag ≠ 0)) :
    gcoapFindResource uri mflag ls = GCOAP_RESOURCE_WRONG_METHOD ∧
    gcoapFindResource uri mflag ls ≠ GCOAP_RESOURCE_NO_PATH ∧
    specEngineErrorCode (gcoapFindResource uri mflag ls) = COAP_CODE_METHOD_NOT_ALLOWED ∧
    COAP_CODE_METHOD_NOT_ALLOWED ≠ COAP_CODE_PATH_NOT_FOUND := by
  have h1 : gcoapFindResource uri mflag ls = GCOAP_RESOURCE_WRONG_METHOD := by
    rw [gcoapFindResource,
        findResListeners_wrong uri mflag ls GCOAP_RESOURCE_NO_PATH hsort hex hno]
  refine ⟨h1, ?_, ?_, by decide⟩
  · rw [h1]; decide
  · rw [h1]; decide

/-! # C8: two-pass resource listing -/

theorem sizeScan_le : ∀ (rs : List Resource) (pos : Nat), pos ≤ resListSizeScan rs pos
  | [], _ => Nat.le_refl _
  | r :: rest, pos =>
    Nat.le_trans
      (Nat.le_add_right pos _ |>.trans (Nat.le_add_right _ r.path.length))
      (sizeScan_le rest (pos + (if pos = 0 then 2 else 3) + r.path.length))

theorem sizeListeners_le : ∀ (ls : List Listener) (pos : Nat),
    pos ≤ resListSizeListeners ls pos
  | [], _ => Nat.le_refl _
  | l :: rest, pos =>
    Nat.le_trans (sizeScan_le l.resources pos)
      (sizeListeners_le rest (resListSizeScan l.resources pos))

theorem sizeScan_eq_zero_iff (rs : List Resource) (pos : Nat) :
    resListSizeScan rs pos = 0 ↔ (pos = 0 ∧ rs = []) := by
  cases rs with
  | nil => simp [resListSizeScan]
  | cons r rest =>
    constructor
    · intro h
      exfalso
      have h1 := sizeScan_le rest (pos + (if pos = 0 then 2 else 3) + r.path.length)
      have h0 : resListSizeScan (r :: rest) pos =
          resListSizeScan rest (pos + (if pos = 0 then 2 else 3) + r.path.length) := rfl
      rw [h0] at h
      rw [h] at h1
      have h2 : 2 ≤ pos + (if pos = 0 then 2 else 3) + r.path.length := by
        by_cases hp : pos = 0 <;> simp [hp] <;> omega
      omega
    · rintro ⟨_, h⟩; exact absurd h (by simp)

theorem writeScan_len (maxlen : Nat) : ∀ (rs : List Resource) (pos : Nat),
    (resListWriteScan maxlen rs pos).1.length + pos =
      (resListWriteScan maxlen rs pos).2 := by
  intro rs
  induction rs with
  | nil => intro pos; simp [resListWriteScan]
  | cons r rest ih =>
    intro pos
    rw [resListWriteScan]
    by_cases hb : maxlen < pos + r.path.length + 3
    · rw [if_pos hb]; simp
    · rw [if_neg hb]
      have h1 := ih (pos + (if pos = 0 then 2 else 3) + r.path.length)
      by_cases hp : pos = 0 <;> simp [hp] at h1 ⊢ <;> omega

theorem writeListeners_len (maxlen : Nat) : ∀ (ls : List Listener) (pos : Nat),
    (resListWriteListeners maxlen ls pos).1.length + pos =
      (resListWriteListeners maxlen ls pos).2 := by
  intro ls
  induction ls with
  | nil => intro pos; simp [resListWriteListeners]
  | cons l rest ih =>
    intro pos
    rw [resListWriteListeners]
    have h1 := writeScan_len maxlen l.resources pos
    have h2 := ih (resListWriteScan maxlen l.resources pos).2
    simp only [List.length_append]
    omega

theorem segFormat_append : ∀ (b : Bool) (xs ys : List (List Nat)),
    segFormat b (xs ++ ys) = segFormat b xs ++ segFormat (b && xs.isEmpty) ys
  | b, [], ys => by simp [segFormat]
  | b, x :: xs, ys => by
    rw [List.cons_append, segFormat, segFormat, segFormat_append false xs ys]
    simp [List.append_assoc]

theorem segFormat_false_eq : ∀ (ps : List (List Nat)), ps ≠ [] →
    segFormat false ps = COMMA_BYTE :: segFormat true ps
  | [], h => absurd rfl h
  | p :: rest, _ => by
    rw [segFormat, segFormat]
    simp

theorem segFormat_true_eq : ∀ (ps : List (List Nat)), segFormat true ps = linkFormat ps
  | [] => rfl
  | [p] => by
    rw [segFormat, segFormat, linkFormat]
    simp
  | p :: q :: rest => by
    rw [segFormat, linkFormat.eq_3,
        segFormat_false_eq (q :: rest) (by simp),
        segFormat_true_eq (q :: rest)]
    simp

theorem writeScan_eq (maxlen : Nat) : ∀ (rs : List Resource) (pos : Nat),
    resListSizeScan rs pos + 1 ≤ maxlen →
    resListWriteScan maxlen rs pos =
      (segFormat (pos == 0) (rs.map Resource.path), resListSizeScan rs pos) := by
  intro rs
  induction rs with
  | nil => intro pos _; simp [resListWriteScan, resListSizeScan, segFormat]
  | cons r rest ih =>
    intro pos h
    have hsz : resListSizeScan (r :: rest) pos =
        resListSizeScan rest (pos + (if pos = 0 then 2 else 3) + r.path.length) := rfl
    have hmono := sizeScan_le rest (pos + (if pos = 0 then 2 else 3) + r.path.length)
    have hfit : ¬(maxlen < pos + r.path.length + 3) := by
      rw [hsz] at h
      by_cases hp : pos = 0 <;> simp [hp] at h hmono ⊢ <;> omega
    rw [resListWriteScan, if_neg hfit]
    have h2 : resListSizeScan rest (pos + (if pos = 0 then 2 else 3) + r.path.length)
        + 1 ≤ maxlen := by rw [← hsz]; exact h
    rw [ih (pos + (if pos = 0 then 2 else 3) + r.path.length) h2]
    have hnz : ((pos + (if pos = 0 then 2 else 3) + r.path.length) == 0) = false := by
      by_cases hp : pos = 0 <;> simp [hp] <;> omega
    rw [hnz, List.map_cons, hsz]
    by_cases hp : pos = 0 <;> simp [hp, segFormat, List.append_assoc]

theorem writeListeners_eq (maxlen : Nat) : ∀ (ls : List Listener) (pos : Nat),
    resListSizeListeners ls pos + 1 ≤ maxlen →
    resListWriteListeners maxlen ls pos =
      (segFormat (pos == 0) (((ls.map Listener.resources).flatten).map Resource.path),
       resListSizeListeners ls pos) := by
  intro ls
  induction ls with
  | nil => intro pos _; simp [resListWriteListeners, resListSizeListeners, segFormat]
  | cons l rest ih =>
    intro pos h
    have hszs : resListSizeListeners (l :: rest) pos =
        resListSizeListeners rest (resListSizeScan l.resources pos) := rfl
    rw [hszs] at h
    have h1 : resListSizeScan l.resources pos + 1 ≤ maxlen :=
      Nat.le_trans (Nat.add_le_add_right
        (sizeListeners_le rest (resListSizeScan l.resources pos)) 1) h
    rw [resListWriteListeners, writeScan_eq maxlen l.resources pos h1,
        ih (resListSizeScan l.resources pos) h]
    have hflag : ((resListSizeScan l.resources pos == 0) : Bool) =
        ((pos == 0) && (l.resources.map Resource.path).isEmpty) := by
      by_cases hp : pos = 0
      · by_cases hr : l.resources = []
        · subst hp; rw [hr]; rfl
        · have hne : resListSizeScan l.resources pos ≠ 0 := fun hz =>
            hr ((sizeScan_eq_zero_iff l.resources pos).mp hz).2
          rw [beq_eq_false_iff_ne.mpr hne, hp]
          cases hcl : l.resources with
          | nil => exact absurd hcl hr
          | cons a as => simp
      · have hne : resListSizeScan l.resources pos ≠ 0 := fun hz =>
          hp ((sizeScan_eq_zero_iff l.resources pos).mp hz).1
        rw [beq_eq_false_iff_ne.mpr hne, beq_eq_false_iff_ne.mpr hp]
        simp
    rw [hflag, List.map_cons, List.flatten_cons, List.map_append,
        segFormat_append (pos == 0) (l.resources.map Resource.path), hszs]

/-- C8: for any listener chain, the null-buffer call returns exactly the
byte count the non-null call (with sufficient `maxlen`) writes; the
written listing skips the head listener and is exactly
`<path1>,<path2>,…`. -/
theorem get_resource_list_two_pass (ls : List Listener) (maxlen : Nat)
    (h : getResourceListNull ls + 1 ≤ maxlen) :
    (getResourceListBuf ls maxlen).2 = getResourceListNull ls ∧
    (getResourceListBuf ls maxlen).1 = linkFormat (resListPaths ls) ∧
    (getResourceListBuf ls maxlen).1.length = getResourceListNull ls := by
  have hw := writeListeners_eq maxlen (ls.drop 1) 0 h
  have hlen := writeListeners_len maxlen (ls.drop 1) 0
  rw [getResourceListBuf, getResourceListNull] at *
  rw [hw]
  refine ⟨rfl, ?_, ?_⟩
  · show segFormat (0 == 0) ((((ls.drop 1).map Listener.resources).flatten).map
      Resource.path) = linkFormat (resListPaths ls)
    rw [resListPaths]
    exact segFormat_true_eq _
  · rw [hw] at hlen
    simpa using hlen

/-- Witness for C8: listeners providing "/a" and "/b/c" after the head
listener, with `maxlen = 100`; the two passes agree and the payload is
exactly `</a>,</b/c>`. -/
theorem get_resource_list_two_pass_witness :
    (getResourceListBuf listenersC8 100).2 = getResourceListNull listenersC8 ∧
    (getResourceListBuf listenersC8 100).1 = linkFormat (resListPaths listenersC8) ∧
    (getResourceListBuf listenersC8 100).1.length = getResourceListNull listenersC8 :=
  get_resource_list_two_pass listenersC8 100 (by decide)

/-- Witness for C5: one listener serving path "/a" (bytes `[47, 97]`)
with only the GET bit set, scanned for method flag 2 (POST). -/
theorem find_resource_wrong_method_witness :
    gcoapFindResource [47, 97] 2 [{ resources := [{ path := [47, 97], methods := 1 }] }] =
      GCOAP_RESOURCE_WRONG_METHOD ∧
    gcoapFindResource [47, 97] 2 [{ resources := [{ path := [47, 97], methods := 1 }] }] ≠
      GCOAP_RESOURCE_NO_PATH ∧
    specEngineErrorCode (gcoapFindResource [47, 97] 2
      [{ resources := [{ path := [47, 97], methods := 1 }] }]) =
      COAP_CODE_METHOD_NOT_ALLOWED ∧
    COAP_CODE_METHOD_NOT_ALLOWED ≠ COAP_CODE_PATH_NOT_FOUND :=
  find_resource_wrong_method [47, 97] 2
    [{ resources := [{ path := [47, 97], methods := 1 }] }]
    (by simp) (by simp) (by simp)

/-! # Observe-table scan lemmas -/

theorem memoMatch_false_of_none {m : ObsMemo} (h : m.observer = none)
    (remObs : Option Nat) (tk? : Option (List Nat)) :
    memoMatch m remObs tk? = false := by
  rw [memoMatch, h]

theorem memoMatch_self {m : ObsMemo} {j : Nat} (h : m.observer = some j) :
    memoMatch m (some j) none = true := by
  rw [memoMatch, h]
  simp

theorem memoMatch_key {m : ObsMemo} {j : Nat} {tk : List Nat}
    (h : m.observer = some j) (ht : m.token = tk) :
    memoMatch m (some j) (some tk) = true := by
  rw [memoMatch, h, ht]
  simp

theorem memoMatch_observer {m : ObsMemo} {remObs : Option Nat}
    {tk? : Option (List Nat)} (h : memoMatch m remObs tk? = true) :
    m.observer = remObs := by
  rw [memoMatch] at h
  cases ho : m.observer with
  | none => rw [ho] at h; exact absurd h (by simp)
  | some j =>
    rw [ho] at h
    have h2 := Bool.and_elim_left h
    rw [beq_iff_eq] at h2
    exact h2

theorem findObsMemo_fst_cons (remObs : Option Nat) (tk? : Option (List Nat))
    (m : ObsMemo) (rest : List ObsMemo) :
    (findObsMemo remObs tk? (m :: rest)).1 =
      if memoMatch m remObs tk? then some 0
      else ((findObsMemo remObs tk? rest).1).map (· + 1) := by
  rw [findObsMemo]
  by_cases ho : m.observer = none
  · rw [if_pos ho, memoMatch_false_of_none ho]
    rcases h : findObsMemo remObs tk? rest with ⟨f, e⟩
    cases e <;> simp
  · rw [if_neg ho]
    by_cases hm : memoMatch m remObs tk? = true
    · rw [if_pos hm, hm]; rfl
    · rw [if_neg hm]
      have hm2 : memoMatch m remObs tk? = false := Bool.eq_false_iff.mpr hm
      rw [hm2]
      simp

theorem findObsMemo_found {remObs : Option Nat} {tk? : Option (List Nat)} :
    ∀ {ms : List ObsMemo} {i : Nat}, (findObsMemo remObs tk? ms).1 = some i →
      i < ms.length ∧ memoMatch (ms.getD i default) remObs tk? = true := by
  intro ms
  induction ms with
  | nil => intro i h; rw [findObsMemo] at h; exact absurd h (by simp)
  | cons m rest ih =>
    intro i h
    rw [findObsMemo_fst_cons] at h
    by_cases hm : memoMatch m remObs tk? = true
    · rw [if_pos hm] at h
      have hi : i = 0 := by
        have h2 := Option.some.inj h
        omega
      subst hi
      exact ⟨Nat.succ_pos _, hm⟩
    · rw [if_neg hm] at h
      cases hr : (findObsMemo remObs tk? rest).1 with
      | none => rw [hr] at h; exact absurd h (by simp)
      | some k =>
        rw [hr] at h
        simp at h
        obtain ⟨hk, hm2⟩ := ih hr
        cases i with
        | zero => omega
        | succ i2 =>
          have hik : i2 = k := by omega
          subst hik
          exact ⟨Nat.succ_lt_succ hk, hm2⟩

theorem findObsMemo_not_found {remObs : Option Nat} {tk? : Option (List Nat)} :
    ∀ {ms : List ObsMemo}, (findObsMemo remObs tk? ms).1 = none →
      ∀ i, i < ms.length → memoMatch (ms.getD i default) remObs tk? = false := by
  intro ms
  induction ms with
  | nil => intro _ i hi; exact absurd hi (Nat.not_lt_zero i)
  | cons m rest ih =>
    intro h i hi
    rw [findObsMemo_fst_cons] at h
    by_cases hm : memoMatch m remObs tk? = true
    · rw [if_pos hm] at h; exact absurd h (by simp)
    · rw [if_neg hm] at h
      cases i with
      | zero => exact Bool.eq_false_iff.mpr hm
      | succ i2 =>
        have hr : (findObsMemo remObs tk? rest).1 = none := by
          cases hr2 : (findObsMemo remObs tk? rest).1 with
          | none => rfl
          | some k => rw [hr2] at h; simp at h
        have h2 := ih hr i2 (Nat.lt_of_succ_lt_succ hi)
        simpa using h2

theorem findObsMemo_empty {remObs : Option Nat} {tk? : Option (List Nat)} :
    ∀ {ms : List ObsMemo} {e : Nat}, (findObsMemo remObs tk? ms).2 = some e →
      e < ms.length ∧ (ms.getD e default).observer = none := by
  intro ms
  induction ms with
  | nil => intro e h; rw [findObsMemo] at h; exact absurd h (by simp)
  | cons m rest ih =>
    intro e h
    rw [findObsMemo] at h
    by_cases ho : m.observer = none
    · rw [if_pos ho] at h
      rcases hr : findObsMemo remObs tk? rest with ⟨f, e2⟩
      rw [hr] at h
      cases e2 with
      | none =>
        simp at h
        subst h
        exact ⟨Nat.succ_pos _, ho⟩
      | some e3 =>
        simp at h
        obtain ⟨hk, ho2⟩ := ih (by rw [hr] : (findObsMemo remObs tk? rest).2 = some e3)
        cases e with
        | zero => omega
        | succ e4 =>
          have he : e4 = e3 := by omega
          subst he
          exact ⟨Nat.succ_lt_succ hk, ho2⟩
    · rw [if_neg ho] at h
      by_cases hm : memoMatch m remObs tk? = true
      · rw [if_pos hm] at h; exact absurd h (by simp)
      · rw [if_neg hm] at h
        cases hr : (findObsMemo remObs tk? rest).2 with
        | none => rw [hr] at h; simp at h
        | some e3 =>
          rw [hr] at h
          simp at h
          obtain ⟨hk, ho2⟩ := ih hr
          cases e with
          | zero => omega
          | succ e4 =>
            have he : e4 = e3 := by omega
            subst he
            exact ⟨Nat.succ_lt_succ hk, ho2⟩

theorem findObserver_found {remote : SockEp} :
    ∀ {os : List SockEp} {j : Nat}, (findObserver remote os).1 = some j →
      j < os.length ∧ (os.getD j default).family ≠ AF_UNSPEC := by
  intro os
  induction os with
  | nil => intro j h; rw [findObserver] at h; exact absurd h (by simp)
  | cons o rest ih =>
    intro j h
    rw [findObserver] at h
    by_cases hf : o.family = AF_UNSPEC
    · rw [if_pos hf] at h
      rcases hr : findObserver remote rest with ⟨f, e⟩
      rw [hr] at h
      have hfst : f.map (· + 1) = some j := by
        cases e <;> simpa using h
      cases f with
      | none => rw [show (none : Option Nat).map (· + 1) = none from rfl] at hfst; simp at hfst
      | some j2 =>
        simp at hfst
        obtain ⟨hk, hfam⟩ := ih (by rw [hr] : (findObserver remote rest).1 = some j2)
        cases j with
        | zero => omega
        | succ j3 =>
          have he : j3 = j2 := by omega
          subst he
          exact ⟨Nat.succ_lt_succ hk, hfam⟩
    · rw [if_neg hf] at h
      by_cases hm : epMatch o remote = true
      · rw [if_pos hm] at h
        have hj : j = 0 := by
          have h2 := Option.some.inj h
          omega
        subst hj
        exact ⟨Nat.succ_pos _, hf⟩
      · rw [if_neg hm] at h
        cases hr : (findObserver remote rest).1 with
        | none => rw [hr] at h; simp at h
        | some j2 =>
          rw [hr] at h
          simp at h
          obtain ⟨hk, hfam⟩ := ih hr
          cases j with
          | zero => omega
          | succ j3 =>
            have he : j3 = j2 := by omega
            subst he
            exact ⟨Nat.succ_lt_succ hk, hfam⟩

theorem findObserver_empty {remote : SockEp} :
    ∀ {os : List SockEp} {e : Nat}, (findObserver remote os).2 = some e →
      e < os.length ∧ (os.getD e default).family = AF_UNSPEC := by
  intro os
  induction os with
  | nil => intro e h; rw [findObserver] at h; exact absurd h (by simp)
  | cons o rest ih =>
    intro e h
    rw [findObserver] at h
    by_cases hf : o.family = AF_UNSPEC
    · rw [if_pos hf] at h
      rcases hr : findObserver remote rest with ⟨f, e2⟩
      rw [hr] at h
      cases e2 with
      | none =>
        simp at h
        subst h
        exact ⟨Nat.succ_pos _, hf⟩
      | some e3 =>
        simp at h
        obtain ⟨hk, hfam⟩ := ih (by rw [hr] : (findObserver remote rest).2 = some e3)
        cases e with
        | zero => omega
        | succ e4 =>
          have he : e4 = e3 := by omega
          subst he
          exact ⟨Nat.succ_lt_succ hk, hfam⟩
    · rw [if_neg hf] at h
      by_cases hm : epMatch o remote = true
      · rw [if_pos hm] at h; simp at h
      · rw [if_neg hm] at h
        cases hr : (findObserver remote rest).2 with
        | none => rw [hr] at h; simp at h
        | some e3 =>
          rw [hr] at h
          simp at h
          obtain ⟨hk, hfam⟩ := ih hr
          cases e with
          | zero => omega
          | succ e4 =>
            have he : e4 = e3 := by omega
            subst he
            exact ⟨Nat.succ_lt_succ hk, hfam⟩

theorem findObsMemoResource_none {r : Nat} :
    ∀ {ms : List ObsMemo}, findObsMemoResource r ms = none →
      ∀ i, i < ms.length →
        ¬((ms.getD i default).observer ≠ none ∧ (ms.getD i default).resource = r) := by
  intro ms
  induction ms with
  | nil => intro _ i hi; exact absurd hi (Nat.not_lt_zero i)
  | cons m rest ih =>
    intro h i hi
    rw [findObsMemoResource] at h
    by_cases hm : m.observer ≠ none ∧ m.resource = r
    · rw [if_pos hm] at h; exact absurd h (by simp)
    · rw [if_neg hm] at h
      cases i with
      | zero => exact hm
      | succ i2 =>
        have hr : findObsMemoResource r rest = none := by
          cases hr2 : findObsMemoResource r rest with
          | none => rfl
          | some k => rw [hr2] at h; simp at h
        have h2 := ih hr i2 (Nat.lt_of_succ_lt_succ hi)
        simpa using h2

/-! # C4: the observe-table invariant -/

theorem obsInv_set_free (st : ObsState) (i : Nat) (x : ObsMemo)
    (hx : x.observer = none) (h : ObsInv st) :
    ObsInv { observers := st.observers, memos := st.memos.set i x } := by
  obtain ⟨hk, hr, hl⟩ := h
  have hkeepElem : ∀ a, ((st.memos.set i x).getD a default).observer ≠ none →
      (st.memos.set i x).getD a default = st.memos.getD a default := by
    intro a ha
    by_cases he : i = a
    · subst he
      by_cases hlen : i < st.memos.length
      · rw [getD_set_self st.memos i x default hlen] at ha
        exact absurd hx ha
      · rw [List.set_eq_of_length_le (Nat.le_of_not_lt hlen)]
    · exact getD_set_ne st.memos i a x default he
  refine ⟨?_, ?_, ?_⟩
  · intro a b ha hb hab hause hbuse
    rw [List.length_set] at ha hb
    rw [hkeepElem a hause, hkeepElem b hbuse] at *
    exact hk a b ha hb hab hause hbuse
  · intro a b ha hb hab hause hbuse
    rw [List.length_set] at ha hb
    rw [hkeepElem a hause, hkeepElem b hbuse] at *
    exact hr a b ha hb hab hause hbuse
  · intro a ha k hobs
    rw [List.length_set] at ha
    have hause : ((st.memos.set i x).getD a default).observer ≠ none := by
      rw [hobs]; simp
    rw [hkeepElem a hause] at hobs
    exact hl a ha k hobs

theorem obsInv_clearObsMemo (st : ObsState) (i : Nat) (remote : SockEp)
    (h : ObsInv st) : ObsInv (clearObsMemo st i remote) := by
  have hbase : ObsInv (ObsState.mk st.observers (setMemoObserverNone st.memos i)) :=
    obsInv_set_free st i _ rfl h
  rw [clearObsMemo]
  split
  · exact hbase
  · rename_i hfind
    split
    · rename_i j hro
      obtain ⟨hk, hr, hl⟩ := hbase
      refine ⟨hk, hr, ?_⟩
      intro a ha k hobs
      have ha2 : a < (setMemoObserverNone st.memos i).length := ha
      have hobs2 : ((setMemoObserverNone st.memos i).getD a default).observer = some k :=
        hobs
      have hkj : k ≠ j := by
        intro he
        subst he
        have hmm := findObsMemo_not_found hfind a ha2
        rw [hro, memoMatch_self hobs2] at hmm
        exact absurd hmm (by simp)
      have h2 := hl a ha2 k hobs2
      show k < (freeObserverSlot st.observers j).length ∧
        ((freeObserverSlot st.observers j).getD k default).family ≠ AF_UNSPEC
      refine ⟨?_, ?_⟩
      · rw [freeObserverSlot, List.length_set]
        exact h2.1
      · rw [freeObserverSlot, getD_set_ne st.observers j k _ default (fun x => hkj x.symm)]
        exact h2.2
    · exact hbase

theorem obsInv_insert (st : ObsState) (observers2 : List SockEp) (e j : Nat)
    (res : Nat) (tk : List Nat)
    (h : ObsInv st)
    (hlen2 : observers2.length = st.observers.length)
    (he : e < st.memos.length)
    (hj : j < observers2.length)
    (hjfam : (observers2.getD j default).family ≠ AF_UNSPEC)
    (hkeep : ∀ k, k < st.observers.length →
      (st.observers.getD k default).family ≠ AF_UNSPEC →
      (observers2.getD k default).family ≠ AF_UNSPEC)
    (hnokey : ∀ a, a < st.memos.length →
      (st.memos.getD a default).observer ≠ none →
      ¬((st.memos.getD a default).observer = some j ∧
        (st.memos.getD a default).token = tk))
    (hnores : ∀ a, a < st.memos.length →
      ¬((st.memos.getD a default).observer ≠ none ∧
        (st.memos.getD a default).resource = res)) :
    ObsInv { observers := observers2,
             memos := st.memos.set e { observer := some j, resource := res, token := tk } } := by
  obtain ⟨hk, hr, hl⟩ := h
  refine ⟨?_, ?_, ?_⟩
  · intro a b ha hb hab hause hbuse
    rw [List.length_set] at ha hb
    rintro ⟨hobs, htok⟩
    by_cases haE : a = e
    · have hbE : b ≠ e := fun hbe => hab (haE.trans hbe.symm)
      rw [haE] at hobs htok
      rw [getD_set_self st.memos e _ default he] at hobs htok
      rw [getD_set_ne st.memos e b _ default (fun x => hbE x.symm)] at hobs htok hbuse
      exact hnokey b hb hbuse ⟨hobs.symm, htok.symm⟩
    · rw [getD_set_ne st.memos e a _ default (fun x => haE x.symm)] at hobs htok hause
      by_cases hbE : b = e
      · rw [hbE] at hobs htok
        rw [getD_set_self st.memos e _ default he] at hobs htok
        exact hnokey a ha hause ⟨hobs, htok⟩
      · rw [getD_set_ne st.memos e b _ default (fun x => hbE x.symm)] at hobs htok hbuse
        exact hk a b ha hb hab hause hbuse ⟨hobs, htok⟩
  · intro a b ha hb hab hause hbuse
    rw [List.length_set] at ha hb
    intro hres
    by_cases haE : a = e
    · have hbE : b ≠ e := fun hbe => hab (haE.trans hbe.symm)
      rw [haE] at hres
      rw [getD_set_self st.memos e _ default he] at hres
      rw [getD_set_ne st.memos e b _ default (fun x => hbE x.symm)] at hres hbuse
      exact hnores b hb ⟨hbuse, hres.symm⟩
    · rw [getD_set_ne st.memos e a _ default (fun x => haE x.symm)] at hres hause
      by_cases hbE : b = e
      · rw [hbE] at hres
        rw [getD_set_self st.memos e _ default he] at hres
        exact hnores a ha ⟨hause, hres⟩
      · rw [getD_set_ne st.memos e b _ default (fun x => hbE x.symm)] at hres hbuse
        exact hr a b ha hb hab hause hbuse hres
  · intro a ha k hobs
    rw [List.length_set] at ha
    by_cases haE : a = e
    · rw [haE] at hobs
      rw [getD_set_self st.memos e _ default he] at hobs
      have hjk : j = k := by simpa using hobs
      subst hjk
      exact ⟨hj, hjfam⟩
    · rw [getD_set_ne st.memos e a _ default (fun x => haE x.symm)] at hobs
      have h2 := hl a ha k hobs
      exact ⟨by rw [hlen2]; exact h2.1, hkeep k h2.1 h2.2⟩

theorem obsInv_handleRegister (st : ObsState) (remote : SockEp) (tk : List Nat)
    (res : Nat) (hfam : remote.family ≠ AF_UNSPEC) (h : ObsInv st) :
    ObsInv (handleRegister st remote tk res).st := by
  rw [handleRegister]
  simp only []
  split
  · rename_i m hfm
    exact obsInv_set_free st m _ rfl h
  · rename_i hfm
    split
    · rename_i e hemp hres
      split
      · rename_i j hfo
        obtain ⟨hj, hjfam⟩ := findObserver_found hfo
        obtain ⟨he, _⟩ := findObsMemo_empty hemp
        refine obsInv_insert st st.observers e j res tk h rfl he hj hjfam
          (fun k _ hk => hk) ?_ (findObsMemoResource_none hres)
        intro a ha hause hcontra
        have hmm := findObsMemo_not_found hfm a ha
        rw [hfo] at hmm
        rw [memoMatch_key hcontra.1 hcontra.2] at hmm
        exact absurd hmm (by simp)
      · split
        · rename_i hfo j hfo2
          obtain ⟨hj, hjfam⟩ := findObserver_empty hfo2
          obtain ⟨he, _⟩ := findObsMemo_empty hemp
          refine obsInv_insert st (st.observers.set j remote) e j res tk h
            (List.length_set st.observers j remote) he
            (by rw [List.length_set]; exact hj)
            (by rw [getD_set_self st.observers j remote default hj]; exact hfam)
            ?_ ?_ (findObsMemoResource_none hres)
          · intro k hk hkfam
            have hkj : k ≠ j := by
              intro hkeq
              subst hkeq
              exact hkfam hjfam
            rw [getD_set_ne st.observers j k remote default (fun x => hkj x.symm)]
            exact hkfam
          · intro a ha hause hcontra
            have h2 := h.2.2 a ha j hcontra.1
            exact h2.2 hjfam
        · exact h
    · exact h

theorem obsInv_handleDeregister (st : ObsState) (remote : SockEp) (tk : List Nat)
    (h : ObsInv st) : ObsInv (handleDeregister st remote tk) := by
  rw [handleDeregister]
  split
  · rename_i m _; exact obsInv_clearObsMemo st m remote h
  · exact h

theorem obsInv_handleObsCleanup (st : ObsState) (findRemote : SockEp) (tk : List Nat)
    (clearRemote : SockEp) (h : ObsInv st) :
    ObsInv (handleObsCleanup st findRemote tk clearRemote) := by
  rw [handleObsCleanup]
  split
  · rename_i m _; exact obsInv_clearObsMemo st m clearRemote h
  · exact h

theorem obsInv_applyObsOp (st : ObsState) (op : ObsOp) (hv : op.valid)
    (h : ObsInv st) : ObsInv (applyObsOp st op) := by
  cases op with
  | register remote tk res => exact obsInv_handleRegister st remote tk res hv h
  | deregister remote tk => exact obsInv_handleDeregister st remote tk h
  | cleanup fr tk cr => exact obsInv_handleObsCleanup st fr tk cr h

theorem obsInv_runObsOps : ∀ (ops : List ObsOp) (st : ObsState),
    (∀ op ∈ ops, op.valid) → ObsInv st → ObsInv (runObsOps st ops)
  | [], st, _, h => h
  | op :: rest, st, hops, h =>
    obsInv_runObsOps rest (applyObsOp st op)
      (fun o ho => hops o (List.mem_cons_of_mem op ho))
      (obsInv_applyObsOp st op (hops op (List.mem_cons_self op rest)) h)

theorem obsInv_init (nObs nMemos : Nat) : ObsInv (initObsState nObs nMemos) := by
  refine ⟨?_, ?_, ?_⟩
  · intro a b ha hb _ hause _
    exfalso
    apply hause
    rw [initObsState] at ha ⊢
    rw [List.length_replicate] at ha
    rw [getD_replicate nMemos a _ default ha]
  · intro a b ha hb _ hause _
    exfalso
    apply hause
    rw [initObsState] at ha ⊢
    rw [List.length_replicate] at ha
    rw [getD_replicate nMemos a _ default ha]
  · intro a ha k hobs
    exfalso
    rw [initObsState] at ha hobs
    rw [List.length_replicate] at ha
    rw [getD_replicate nMemos a _ default ha] at hobs
    exact absurd hobs (by simp)

/-- C4 (amended): through any sequence of engine operations on the
observe tables (register, deregister, RST/timeout cleanup) starting from
the initialized state, no two in-use observe memos share the
(observer, token) pair — token_len being the token's length — and no two
in-use memos reference the same resource; and a register whose
(remote, token) pair has no existing memo is refused (Observe cleared,
state unchanged) when the resource already has a memo.  (The claim's
unconditional refusal clause fails: a re-register by an existing
(remote, token) pair is not refused — see the counterexample.) -/
theorem observe_tables_invariant (nObs nMemos : Nat) (ops : List ObsOp)
    (hops : ∀ op ∈ ops, op.valid) :
    ObsInv (runObsOps (initObsState nObs nMemos) ops) ∧
    (∀ (st : ObsState) (remote : SockEp) (tk : List Nat) (res : Nat),
      (findObsMemo (findObserver remote st.observers).1 (some tk) st.memos).1 = none →
      findObsMemoResource res st.memos ≠ none →
      (handleRegister st remote tk res).cleared = true ∧
      (handleRegister st remote tk res).st = st) := by
  refine ⟨obsInv_runObsOps ops (initObsState nObs nMemos) hops
    (obsInv_init nObs nMemos), ?_⟩
  intro st remote tk res hnew hres
  cases hrm : findObsMemoResource res st.memos with
  | none => exact absurd hrm hres
  | some r =>
    cases hemp : (findObsMemo (findObserver remote st.observers).1 (some tk)
        st.memos).2 with
    | none => rw [handleRegister]; simp [hnew, hrm, hemp]
    | some e => rw [handleRegister]; simp [hnew, hrm, hemp]

/-- Witness for C4's amended theorem at a concrete run: one valid
register operation from `r1C`. -/
theorem observe_tables_invariant_witness :
    ObsInv (runObsOps (initObsState 2 2) [ObsOp.register r1C [7] 5]) ∧
    (∀ (st : ObsState) (remote : SockEp) (tk : List Nat) (res : Nat),
      (findObsMemo (findObserver remote st.observers).1 (some tk) st.memos).1 = none →
      findObsMemoResource res st.memos ≠ none →
      (handleRegister st remote tk res).cleared = true ∧
      (handleRegister st remote tk res).st = st) :=
  observe_tables_invariant 2 2 [ObsOp.register r1C [7] 5] (by
    intro op hop
    rw [List.mem_singleton] at hop
    subst hop
    show r1C.family ≠ AF_UNSPEC
    decide)

/-- C4 (counterexample): after `r1C` registers token `[7]` for
resource 5, resource 5 has an in-use memo; yet a second identical
register is NOT refused — `coap_clear_observe` is not called (`cleared =
false`, the response carries the Observe option) — and it even wipes the
memo's observer pointer, leaving the resource with no registration at
all. -/
theorem observe_reregister_not_refused :
    (findObsMemoResource 5 (runObsOps (initObsState 2 2)
       [ObsOp.register r1C [7] 5]).memos).isSome = true ∧
    (handleRegister (runObsOps (initObsState 2 2) [ObsOp.register r1C [7] 5])
       r1C [7] 5).cleared = false ∧
    findObsMemoResource 5 ((handleRegister (runObsOps (initObsState 2 2)
       [ObsOp.register r1C [7] 5]) r1C [7] 5).st).memos = none := by
  decide

/-! # C1: EMPTY (ACK/RST) handling in `_listen` -/

theorem clearObsMemo_memos (st : ObsState) (i : Nat) (remote : SockEp) :
    (clearObsMemo st i remote).memos = setMemoObserverNone st.memos i := by
  rw [clearObsMemo]
  split
  · rfl
  · split <;> rfl

/-- C1 (amended): when an incoming EMPTY datagram of type ACK or RST
matches an in-use request memo by message ID, the memo is confirmable
(`send_limit >= 0`), AND an observe memo exists for `(remote, stored
token)`, the engine cancels the response timer, frees the resend buffer
and returns the request memo to the pool; on RST it additionally clears
that observe memo.  On a plain ACK the observe tables are untouched.
(The claim's version without the observe-memo condition fails — see the
counterexample: without one the code only logs and changes nothing.) -/
theorem listen_empty_ack_rst (st : ListenState) (remote : SockEp) (typ : CoapType)
    (id i oi : Nat)
    (hfind : findReqMemoMsgid id st.openReqs = some i)
    (htyp : typ = CoapType.ACK ∨ typ = CoapType.RST)
    (hcon : 0 ≤ (st.openReqs.getD i default).sendLimit)
    (hobs : (findObsMemo (findObserver remote st.obs.observers).1
        (some (st.openReqs.getD i default).token) st.obs.memos).1 = some oi) :
    ((processEmpty st remote typ id).openReqs.getD i default).state = MemoState.UNUSED ∧
    ((processEmpty st remote typ id).openReqs.getD i default).timerArmed = false ∧
    ((processEmpty st remote typ id).openReqs.getD i default).resendBufInUse = false ∧
    (typ = CoapType.RST →
      ((processEmpty st remote typ id).obs.memos.getD oi default).observer = none) ∧
    (typ = CoapType.ACK → (processEmpty st remote typ id).obs = st.obs) := by
  have hi : i < st.openReqs.length :=
    ((findReqMemoMsgid_iff id st.openReqs i).mp hfind).1
  have hoi : oi < st.obs.memos.length := (findObsMemo_found hobs).1
  have hstep : processEmpty st remote typ id =
      ListenState.mk
        (st.openReqs.set i
          { st.openReqs.getD i default with
              state := MemoState.UNUSED
              timerArmed := false
              resendBufInUse := false })
        (if typ = CoapType.RST
         then clearObsMemo st.obs oi (st.openReqs.getD i default).remoteEp
         else st.obs) := by
    rw [processEmpty, hfind]
    simp only []
    rw [if_pos ⟨htyp, hcon⟩, hobs]
  rw [hstep]
  refine ⟨?_, ?_, ?_, ?_, ?_⟩
  · show ((st.openReqs.set i _).getD i default).state = MemoState.UNUSED
    rw [getD_set_self st.openReqs i _ default hi]
  · show ((st.openReqs.set i _).getD i default).timerArmed = false
    rw [getD_set_self st.openReqs i _ default hi]
  · show ((st.openReqs.set i _).getD i default).resendBufInUse = false
    rw [getD_set_self st.openReqs i _ default hi]
  · intro hrst
    show ((if typ = CoapType.RST then _ else st.obs).memos.getD oi default).observer = none
    rw [if_pos hrst, clearObsMemo_memos, setMemoObserverNone,
        getD_set_self st.obs.memos oi _ default hoi]
  · intro hack
    have hnr : typ ≠ CoapType.RST := by rw [hack]; exact fun hc => CoapType.noConfusion hc
    show (if typ = CoapType.RST then _ else st.obs) = st.obs
    rw [if_neg hnr]

/-- Witness for C1's amended theorem: the fixture state with one
confirmable request memo (message ID 7, token [7]) and an observe memo
for `(r1C, [7])`, receiving an RST with matching message ID. -/
theorem listen_empty_ack_rst_witness :
    ((processEmpty listenStateWithObs r1C CoapType.RST 7).openReqs.getD 0
        default).state = MemoState.UNUSED ∧
    ((processEmpty listenStateWithObs r1C CoapType.RST 7).openReqs.getD 0
        default).timerArmed = false ∧
    ((processEmpty listenStateWithObs r1C CoapType.RST 7).openReqs.getD 0
        default).resendBufInUse = false ∧
    (CoapType.RST = CoapType.RST →
      ((processEmpty listenStateWithObs r1C CoapType.RST 7).obs.memos.getD 0
        default).observer = none) ∧
    (CoapType.RST = CoapType.ACK →
      (processEmpty listenStateWithObs r1C CoapType.RST 7).obs =
        listenStateWithObs.obs) :=
  listen_empty_ack_rst listenStateWithObs r1C CoapType.RST 7 0 0
    (by decide) (Or.inr rfl) (by decide) (by decide)

/-- C1 (counterexample): a state with a matching in-use confirmable
request memo (send_limit = 4 ≥ 0) but no observe memo for
`(remote, token)`: the incoming EMPTY ACK with the matching message ID
leaves the engine state entirely unchanged — the timer is still armed
and the memo still WAIT, not UNUSED as the claim requires. -/
theorem listen_empty_no_obs_unchanged :
    processEmpty listenStateNoObs r1C CoapType.ACK 7 = listenStateNoObs ∧
    ((processEmpty listenStateNoObs r1C CoapType.ACK 7).openReqs.getD 0
       default).state = MemoState.WAIT ∧
    ((processEmpty listenStateNoObs r1C CoapType.ACK 7).openReqs.getD 0
       default).timerArmed = true := by
  decide

/-! # C6: capacity failures and Observe clearing -/

theorem findUnusedSlot_none : ∀ (reqs : List SendMemo),
    (∀ m ∈ reqs, m.state ≠ MemoState.UNUSED) → findUnusedSlot reqs = none := by
  intro reqs
  induction reqs with
  | nil => intro _; rfl
  | cons m rest ih =>
    intro h
    rw [findUnusedSlot,
        if_neg (h m (List.mem_cons_self m rest)),
        ih (fun m2 hm2 => h m2 (List.mem_cons_of_mem m hm2))]
    rfl

theorem findUnusedSlot_some : ∀ {reqs : List SendMemo} {i : Nat},
    findUnusedSlot reqs = some i →
      i < reqs.length ∧ (reqs.getD i default).state = MemoState.UNUSED := by
  intro reqs
  induction reqs with
  | nil => intro i h; rw [findUnusedSlot] at h; exact absurd h (by simp)
  | cons m rest ih =>
    intro i h
    rw [findUnusedSlot] at h
    by_cases hm : m.state = MemoState.UNUSED
    · rw [if_pos hm] at h
      have hi : i = 0 := by
        have h2 := Option.some.inj h
        omega
      subst hi
      exact ⟨Nat.succ_pos _, hm⟩
    · rw [if_neg hm] at h
      cases hr : findUnusedSlot rest with
      | none => rw [hr] at h; simp at h
      | some k =>
        rw [hr] at h
        simp at h
        obtain ⟨hk, hst⟩ := ih hr
        cases i with
        | zero => omega
        | succ i2 =>
          have he : i2 = k := by omega
          subst he
          exact ⟨Nat.succ_lt_succ hk, hst⟩

theorem lastFreeBuf_none : ∀ (bufs : List Bool),
    (∀ b ∈ bufs, b = true) → lastFreeBuf bufs = none := by
  intro bufs
  induction bufs with
  | nil => intro _; rfl
  | cons b rest ih =>
    intro h
    rw [lastFreeBuf, ih (fun b2 hb2 => h b2 (List.mem_cons_of_mem b hb2)),
        h b (List.mem_cons_self b rest)]
    rfl

theorem markAllBufsUsed_id : ∀ (bufs : List Bool),
    (∀ b ∈ bufs, b = true) → markAllBufsUsed bufs = bufs := by
  intro bufs
  induction bufs with
  | nil => intro _; rfl
  | cons b rest ih =>
    intro h
    rw [markAllBufsUsed, List.map_cons]
    rw [markAllBufsUsed] at ih
    rw [ih (fun b2 hb2 => h b2 (List.mem_cons_of_mem b hb2)),
        h b (List.mem_cons_self b rest)]

theorem map_state_set : ∀ (reqs : List SendMemo) (i : Nat) (x : SendMemo),
    x.state = (reqs.getD i default).state →
    (reqs.set i x).map SendMemo.state = reqs.map SendMemo.state
  | [], _, _, _ => rfl
  | m :: rest, 0, x, h => by
    rw [List.set_cons_zero, List.map_cons, List.map_cons, h]
    rfl
  | m :: rest, i + 1, x, h => by
    rw [List.set_cons_succ, List.map_cons, List.map_cons,
        map_state_set rest i x h]

theorem handleRegister_cleared (ost : ObsState) (remote : SockEp) (tk : List Nat)
    (res : Nat)
    (hnew : (findObsMemo (findObserver remote ost.observers).1 (some tk) ost.memos).1
      = none)
    (hfail :
      (findObsMemo (findObserver remote ost.observers).1 (some tk) ost.memos).2 = none ∨
      findObsMemoResource res ost.memos ≠ none ∨
      ((findObserver remote ost.observers).1 = none ∧
       (findObserver remote ost.observers).2 = none)) :
    (handleRegister ost remote tk res).cleared = true := by
  cases hemp : (findObsMemo (findObserver remote ost.observers).1 (some tk)
      ost.memos).2 with
  | none => rw [handleRegister]; simp [hnew, hemp]
  | some e =>
    cases hrm : findObsMemoResource res ost.memos with
    | some r => rw [handleRegister]; simp [hnew, hemp, hrm]
    | none =>
      have hobs : (findObserver remote ost.observers).1 = none ∧
          (findObserver remote ost.observers).2 = none := by
        rcases hfail with h1 | h2 | h3
        · rw [hemp] at h1; exact absurd h1 (by simp)
        · exact absurd hrm h2
        · exact h3
      rw [hobs.1] at hnew hemp
      rw [handleRegister]
      simp [hnew, hemp, hrm, hobs.1, hobs.2]

/-- C6: when every open-request slot is in use, or the PDU is
confirmable and every resend buffer is in use, `gcoap_req_send2` returns
0 and the engine state is unchanged — every slot keeps its prior state
and no resend buffer is reserved; and an Observe registration that fails
for lack of a memo slot, because the resource already has a memo, or for
lack of an observer slot clears the Observe option on the response. -/
theorem req_send2_capacity (st : SendState) (msgType : CoapType)
    (hh sOk mOk : Bool)
    (h : (∀ m ∈ st.openReqs, m.state ≠ MemoState.UNUSED) ∨
         (msgType = CoapType.CON ∧ ∀ b ∈ st.resendBufs, b = true)) :
    (reqSend2 st msgType hh sOk mOk).ret = 0 ∧
    (reqSend2 st msgType hh sOk mOk).st.openReqs.map SendMemo.state =
      st.openReqs.map SendMemo.state ∧
    (reqSend2 st msgType hh sOk mOk).st.resendBufs = st.resendBufs ∧
    (∀ (ost : ObsState) (remote : SockEp) (tk : List Nat) (res : Nat),
      (findObsMemo (findObserver remote ost.observers).1 (some tk) ost.memos).1
        = none →
      ((findObsMemo (findObserver remote ost.observers).1 (some tk) ost.memos).2
         = none ∨
       findObsMemoResource res ost.memos ≠ none ∨
       ((findObserver remote ost.observers).1 = none ∧
        (findObserver remote ost.observers).2 = none)) →
      (handleRegister ost remote tk res).cleared = true) := by
  have hmain : (reqSend2 st msgType hh sOk mOk).ret = 0 ∧
      (reqSend2 st msgType hh sOk mOk).st.openReqs.map SendMemo.state =
        st.openReqs.map SendMemo.state ∧
      (reqSend2 st msgType hh sOk mOk).st.resendBufs = st.resendBufs := by
    rcases h with hall | ⟨hcon, hbufs⟩
    · rw [reqSend2, findUnusedSlot_none st.openReqs hall]
      exact ⟨rfl, rfl, rfl⟩
    · subst hcon
      cases hfind : findUnusedSlot st.openReqs with
      | none =>
        rw [reqSend2, hfind]
        exact ⟨rfl, rfl, rfl⟩
      | some i =>
        obtain ⟨hi, hunused⟩ := findUnusedSlot_some hfind
        have hfree : lastFreeBuf st.resendBufs = none := lastFreeBuf_none _ hbufs
        have hmark : markAllBufsUsed st.resendBufs = st.resendBufs :=
          markAllBufsUsed_id _ hbufs
        have hstep : reqSend2 st CoapType.CON hh sOk mOk =
            SendResult.mk (SendState.mk
              (setSlotState (st.openReqs.set i
                { st.openReqs.getD i default with
                    state := MemoState.WAIT
                    hasHandler := hh }) i MemoState.UNUSED)
              (markAllBufsUsed st.resendBufs)) 0 := by
          rw [reqSend2, hfind]
          simp only []
          rw [hfree]
        rw [hstep, hmark]
        refine ⟨rfl, ?_, rfl⟩
        show (setSlotState (st.openReqs.set i
            { st.openReqs.getD i default with
                state := MemoState.WAIT
                hasHandler := hh }) i MemoState.UNUSED).map SendMemo.state =
          st.openReqs.map SendMemo.state
        rw [setSlotState, getD_set_self st.openReqs i _ default hi, List.set_set]
        exact map_state_set st.openReqs i _ (by rw [hunused])
  exact ⟨hmain.1, hmain.2.1, hmain.2.2,
    fun ost remote tk res hnew hfail =>
      handleRegister_cleared ost remote tk res hnew hfail⟩

/-- Witness for C6: a two-slot table with every slot in WAIT (and, for
the observe part, registration against `obsStateOne` whose resource 5 is
already observed). -/
theorem req_send2_capacity_witness :
    (reqSend2 (SendState.mk [reqSendMemoC, reqSendMemoC] [true, true])
       CoapType.CON true true true).ret = 0 ∧
    (reqSend2 (SendState.mk [reqSendMemoC, reqSendMemoC] [true, true])
       CoapType.CON true true true).st.openReqs.map SendMemo.state =
      [reqSendMemoC, reqSendMemoC].map SendMemo.state ∧
    (reqSend2 (SendState.mk [reqSendMemoC, reqSendMemoC] [true, true])
       CoapType.CON true true true).st.resendBufs = [true, true] ∧
    (∀ (ost : ObsState) (remote : SockEp) (tk : List Nat) (res : Nat),
      (findObsMemo (findObserver remote ost.observers).1 (some tk) ost.memos).1
        = none →
      ((findObsMemo (findObserver remote ost.observers).1 (some tk) ost.memos).2
         = none ∨
       findObsMemoResource res ost.memos ≠ none ∨
       ((findObserver remote ost.observers).1 = none ∧
        (findObserver remote ost.observers).2 = none)) →
      (handleRegister ost remote tk res).cleared = true) :=
  req_send2_capacity (SendState.mk [reqSendMemoC, reqSendMemoC] [true, true])
    CoapType.CON true true true (Or.inl (by decide))

end Gcoap
